import Mathlib

/-
  Verification of the getmref reference-processing tool (module/ sources):
  a shallow embedding of the comment-stripping, reference-recognition,
  record-gathering, query-formation, identifier-insertion and batch-controller
  code, together with theorems about the claims of the specification.

  Text is modelled as lists of characters; one python string is one value of
  type Line.  Regular expressions used by the source are translated into
  executable scanning functions that follow the backtracking behaviour of the
  python re module on the string shapes the program feeds them.
-/

namespace GetMRef

/-- A python string: a list of characters. -/
abbrev Line := List Char

/-- Shorthand turning a Lean string literal into a Line. -/
def L (s : String) : Line := s.toList

/-- Concatenation of a list of lines (python join with empty separator). -/
def concatL (ls : List Line) : Line := ls.flatten

/-- Python whitespace class, ASCII part of the regex class backslash-s and of
str.strip with no argument. -/
def isPySpace (c : Char) : Bool :=
  c = ' ' || c = '\t' || c = '\n' || c = '\r' || c = '\x0b' || c = '\x0c'

/-- Python str.lstrip(chars): drop leading characters belonging to the set. -/
def lstripSet (set : Line) (s : Line) : Line := s.dropWhile (fun c => set.contains c)

/-- Python str.rstrip(chars): drop trailing characters belonging to the set. -/
def rstripSet (set : Line) (s : Line) : Line :=
  (s.reverse.dropWhile (fun c => set.contains c)).reverse

/-- Python str.strip(chars): drop the characters of the set from both ends. -/
def stripSet (set : Line) (s : Line) : Line := rstripSet set (lstripSet set s)

/-- Python str.lstrip() with no argument: drop leading whitespace. -/
def lstripWs (s : Line) : Line := s.dropWhile isPySpace

/-- Python str.strip() with no argument: drop whitespace from both ends. -/
def stripWs (s : Line) : Line := (lstripWs s).reverse.dropWhile isPySpace |>.reverse

/-- Python str.replace(pat, rep), fueled left-to-right non-overlapping scan
(the fuel is at least the length of the string, each step consumes at least
one character when the pattern is nonempty). -/
def replaceAllGo (pat rep : Line) : Nat → Line → Line
  | 0, s => s
  | fuel + 1, s =>
    if pat ≠ [] && pat.isPrefixOf s then rep ++ replaceAllGo pat rep fuel (s.drop pat.length)
    else match s with
      | [] => []
      | c :: r => c :: replaceAllGo pat rep fuel r

/-- Python str.replace(pat, rep). -/
def replaceAll (pat rep s : Line) : Line := replaceAllGo pat rep (s.length + 1) s

/-- Index of the last occurrence of pat inside s (python str.rfind); none when
the pattern does not occur. -/
def rfindSub (s pat : Line) : Option Nat :=
  (List.range (s.length + 1)).reverse.find? (fun i => pat.isPrefixOf (s.drop i))

/- ----------------------------------------------------------------------
   constants.py: reference families and their ending/identifier formats
   ---------------------------------------------------------------------- -/

/-- The three recognized input reference families of RefTypes.ITYPES. -/
inductive RTy
  | bibtex
  | amsrefs
  | bibitem
  deriving DecidableEq, Repr

/-- RefTypes ITYPES typical ending (REF_ENDING) per family. -/
def REF_ENDING : RTy → Line
  | .bibtex => ['\x7d']
  | .amsrefs => ['\x7d']
  | .bibitem => L "\\endbibitem"

/-- RefTypes ITYPES MR number format (MR_FORMAT.format(mrid)) per family. -/
def MR_FORMAT : RTy → Line → Line
  | .bibtex, mrid => L ",\nMRNUMBER=\x7b" ++ mrid ++ L "\x7d,\n"
  | .amsrefs, mrid => L ",\nreview=\x7b\\MR\x7b" ++ mrid ++ L "\x7d\x7d,\n"
  | .bibitem, mrid => L "\n\\MR\x7b" ++ mrid ++ L "\x7d\n"

/-- AMS BatchMRef limit of items per query (constants.QUERY_ITEMS_LIMIT). -/
def QUERY_ITEMS_LIMIT : Int := 100

/-- HandleBBL.__init__ computation of the effective per-batch item limit:
the class attribute starts at QUERY_ITEMS_LIMIT and is replaced by itemno
only when itemno is smaller. -/
def effectiveQueryItemsLimit (itemno : Int) : Int :=
  if itemno < QUERY_ITEMS_LIMIT then itemno else QUERY_ITEMS_LIMIT

/- ----------------------------------------------------------------------
   handle_refs.py: InputRefKeys and RefHandler.extract_keys_data
   ---------------------------------------------------------------------- -/

/-- InputRefKeys.KEYS_IN_ORDER: the canonical slots, each with its tuple of
accepted user-facing key names, in query order. -/
def keysInOrder : List (List Line) :=
  [ [L "author"],
    [L "title", L "maintitle"],
    [L "journal", L "journaltitle", L "fjournal", L "booktitle"],
    [L "volume"],
    [L "number", L "series"],
    [L "pages"],
    [L "year", L "date"],
    [L "issn", L "isrn", L "isbn"] ]

/-- First canonical slot index whose synonym tuple contains the key
(indices[0] in extract_keys_data). -/
def slotIndexOf (k : Line) : Option Nat :=
  keysInOrder.findIdx? (fun keys => keys.contains k)

/-- Character class of the regex RE_KEY_VALUE key part, python [\w-] (ASCII). -/
def isWordChar (c : Char) : Bool := c.isAlphanum || c = '_' || c = '-'

/-- The strip set used throughout extract_keys_data: newline, tab, space,
double quote, both braces and comma. -/
def kvStripChars : Line := ['\n', '\t', ' ', '"', '\x7b', '\x7d', ',']

/-- A value group of RE_KEY_VALUE with DOTALL runs to the end of the string;
the dollar anchor excludes one final newline when present. -/
def dropFinalNl (v : Line) : Line :=
  if v.getLast? = some '\n' then v.dropLast else v

/-- RE_KEY_VALUE search: caret-anchored, leading whitespace, a nonempty run
of word characters or hyphens, optional whitespace, an equals sign, optional
whitespace, then the lazily matched value up to the dollar anchor. -/
def reKeyValue (s : Line) : Option (Line × Line) :=
  let t := s.dropWhile isPySpace
  let key := t.takeWhile isWordChar
  let r := (t.dropWhile isWordChar).dropWhile isPySpace
  if key = [] then none
  else match r with
    | '=' :: r2 => some (key, dropFinalNl (r2.dropWhile isPySpace))
    | _ => none

/-- State of the extract_keys_data loop: the ref_data dict (insertion-ordered
association list from slot index to accumulated value) and the active slot
context (current_key_index, current_user_key). -/
structure EKState where
  refData : List (Nat × Line)
  currentKeyIndex : Option Nat
  currentUserKey : Option Line
  deriving DecidableEq, Repr

/-- Dictionary lookup in the ref_data association list. -/
def ekLookup (d : List (Nat × Line)) (i : Nat) : Option Line :=
  (d.find? (fun p => p.1 = i)).map (fun p => p.2)

/-- Dictionary assignment in the ref_data association list: update in place
when the key exists, append otherwise (python dict insertion order). -/
def ekInsert (d : List (Nat × Line)) (i : Nat) (v : Line) : List (Nat × Line) :=
  if (d.find? (fun p => p.1 = i)).isSome then
    d.map (fun p => if p.1 = i then (i, v) else p)
  else d ++ [(i, v)]

/-- One iteration of the extract_keys_data loop over a line. -/
def ekStep (st : EKState) (line : Line) : EKState :=
  if stripSet kvStripChars line = [] then st
  else match reKeyValue line with
    | some (k0, v) =>
      match slotIndexOf (k0.map Char.toLower) with
      | some i =>
        if ekLookup st.refData i = none then
          { refData := ekInsert st.refData i (stripSet kvStripChars v ++ L ", "),
            currentKeyIndex := some i, currentUserKey := some (k0.map Char.toLower) }
        else if st.currentUserKey = some (k0.map Char.toLower) then
          { refData := ekInsert st.refData i
              ((ekLookup st.refData i).getD [] ++ (stripSet kvStripChars v ++ L ", ")),
            currentKeyIndex := some i, currentUserKey := st.currentUserKey }
        else
          { refData := st.refData, currentKeyIndex := none, currentUserKey := none }
      | none =>
        { refData := st.refData, currentKeyIndex := none, currentUserKey := none }
    | none =>
      match st.currentKeyIndex with
      | some i =>
        { st with refData := ekInsert st.refData i (stripSet (L ", ") ((ekLookup st.refData i).getD []) ++ [' '] ++ stripSet kvStripChars line ++ L ", ") }
      | none => st

/-- Stable insertion of a pair into a key-sorted pair list. -/
def insertByFst (p : Nat × Line) : List (Nat × Line) → List (Nat × Line)
  | [] => [p]
  | q :: rest => if p.1 < q.1 then p :: q :: rest else q :: insertByFst p rest

/-- Stable sort of a pair list by its keys (python sorted on dict items;
the keys are distinct slot indices, so any stable comparison sort agrees). -/
def sortByFst : List (Nat × Line) → List (Nat × Line)
  | [] => []
  | p :: rest => insertByFst p (sortByFst rest)

/-- RefHandler.extract_keys_data: extract values of the recognized keys from
the lines and return them comma-separated in canonical slot order. -/
def extractKeysData (lines : List Line) : Line :=
  let st := lines.foldl ekStep ⟨[], none, none⟩
  stripSet (L ", ") ((sortByFst st.refData).foldl (fun acc p => acc ++ p.2) [])

/- ----------------------------------------------------------------------
   handle_bbl.py: HandleBBL._remove_tex_comments
   ---------------------------------------------------------------------- -/

/-- Tail condition of RE_BIBRE_PART and RE_BIBRE_LINE after the matched
percent region: dot-star runs to the first newline, an optional carriage
return is absorbed, a newline is consumed and the dollar anchor requires the
position to be the end of the string or just before one final newline. -/
def texTailOk (rest : Line) : Bool :=
  match rest.dropWhile (fun c => c != '\n') with
  | '\n' :: t => t = [] || t = ['\n']
  | _ => false

/-- RE_BIBRE_LINE substitution with the empty string: the pattern is anchored
at the start, so at most the leading percent-to-newline stretch is removed,
and only when the dollar condition holds after it. -/
def reBibreLineSub (s : Line) : Line :=
  match s with
  | '%' :: rest =>
    (match rest.dropWhile (fun c => c != '\n') with
     | '\n' :: t => if t = [] || t = ['\n'] then t else s
     | _ => s)
  | _ => s

/-- Scan of the lazy group of RE_BIBRE_PART: collect characters until the
first unescaped percent with a valid tail; fail upon a newline.  prev is the
character just before the scan position, used by the lookbehind. -/
def bprtScanGo (prev : Option Char) (s : Line) (acc : Line) : Option Line :=
  match s with
  | [] => none
  | c :: rest =>
    if c = '\n' then none
    else if c = '%' && prev ≠ some '\\' && texTailOk rest then some acc.reverse
    else bprtScanGo (some c) rest (c :: acc)

/-- Search loop of RE_BIBRE_PART: try every start position from the left; at
each one the leading whitespace run is absorbed greedily and the lazy group
scan runs from there. -/
def bprtSearchGo (fuel : Nat) (prev : Option Char) (s : Line) : Option Line :=
  match fuel with
  | 0 => none
  | fuel + 1 =>
    let ws := s.takeWhile isPySpace
    let prevScan := match ws.getLast? with
      | some c => some c
      | none => prev
    match bprtScanGo prevScan (s.dropWhile isPySpace) [] with
    | some g => some g
    | none =>
      match s with
      | [] => none
      | c :: rest => bprtSearchGo fuel (some c) rest

/-- RE_BIBRE_PART search: whitespace, the lazy group, an unescaped percent,
anything to the line end and the dollar anchor; returns group one. -/
def reBibrePart (s : Line) : Option Line := bprtSearchGo (s.length + 1) none s

/-- HandleBBL._remove_tex_comments: full comment lines are removed entirely,
a trailing comment is cut off and the newline restored. -/
def removeTexComments (line : Line) : Line :=
  let fmtline := reBibreLineSub line
  if fmtline = [] then fmtline
  else match reBibrePart fmtline with
    | some g => g ++ ['\n']
    | none => fmtline

/- ----------------------------------------------------------------------
   handle_refs.py: the recognition patterns and RefHandler.find_reference
   ---------------------------------------------------------------------- -/

/-- RE_BIBRE: caret-anchored optional whitespace then the bibitem control
sequence (the trailing dot-star always matches). -/
def reBibre (s : Line) : Bool := (L "\\bibitem").isPrefixOf (s.dropWhile isPySpace)

/-- The brace continuation of RE_BIBREF: one optional whitespace character,
an opening brace, the lazily matched citekey up to the first closing brace,
then the text group running to the end of the string (DOTALL). -/
def bibrefBrace (r : Line) : Option (Line × Line) :=
  let parse : Line → Option (Line × Line) := fun t =>
    match t with
    | '\x7b' :: u =>
      (match u.dropWhile (fun c => c != '\x7d') with
       | '\x7d' :: txt => some (u.takeWhile (fun c => c != '\x7d'), txt)
       | _ => none)
    | _ => none
  match r with
  | c :: rest =>
    if isPySpace c then
      match parse rest with
      | some v => some v
      | none => parse r
    else parse r
  | [] => none

/-- All ways to split a bracketed label from the head of the remainder, in
order of increasing label length (the lazy inner group of RE_BIBREF extends
to each successive closing bracket). -/
def bracketSplitsGo (seen : Line) : Line → List (Line × Line)
  | [] => []
  | c :: rest =>
    if c = ']' then ((c :: seen).reverse, rest) :: bracketSplitsGo (c :: seen) rest
    else bracketSplitsGo (c :: seen) rest

/-- Label loop of RE_BIBREF: the lazy star tries zero further labels first
(the brace continuation), then one more bracketed label with its lazy inner
extents in order.  acc is the last captured label. -/
def bibrefLabels : Nat → Line → Option Line → Option (Option Line × Line × Line)
  | 0, _, _ => none
  | fuel + 1, r, acc =>
    match bibrefBrace r with
    | some (ck, txt) => some (acc, ck, txt)
    | none =>
      match r with
      | '[' :: rest =>
        (bracketSplitsGo ['['] rest).findSome?
          (fun p => bibrefLabels fuel p.2 (some p.1))
      | _ => none

/-- Search loop of RE_BIBREF: leftmost occurrence of the bibitem control
sequence whose continuation parses. -/
def bibrefSearchGo : Nat → Line → Option (Option Line × Line × Line)
  | 0, _ => none
  | fuel + 1, s =>
    let step : Option (Option Line × Line × Line) :=
      if (L "\\bibitem").isPrefixOf s then
        let r := (s.drop 8).dropWhile isPySpace
        bibrefLabels (r.length + 1) r none
      else none
    match step with
    | some v => some v
    | none =>
      match s with
      | [] => none
      | _ :: rest => bibrefSearchGo fuel rest

/-- RE_BIBREF search: returns (biblabel, citekey, text) on a match. -/
def reBibref (s : Line) : Option (Option Line × Line × Line) :=
  bibrefSearchGo (s.length + 1) s

/-- Candidate lengths for a greedy nonspace or line-bounded group, longest
first (regex backtracking order). -/
def descLens (n : Nat) : List Nat := (List.range (n + 1)).reverse

/-- The part of RE_BIBTEX after the at sign: the greedy nonspace token (not
ending in the preamble word), whitespace, an opening brace, the greedy
nonspace citekey, whitespace, a comma, then the text group up to the line
end (MULTILINE dollar). -/
def bibtexAfterAt (u : Line) : Option (Line × Line) :=
  let run := u.takeWhile (fun c => !(isPySpace c))
  (descLens run.length).findSome? (fun n =>
    if n = 0 then none
    else
      let tok := run.take n
      if (L "@preamble").isSuffixOf ('@' :: tok) then none
      else
        match (u.drop n).dropWhile isPySpace with
        | '\x7b' :: w =>
          let run2 := w.takeWhile (fun c => !(isPySpace c))
          (descLens run2.length).findSome? (fun m =>
            if m = 0 then none
            else
              match (w.drop m).dropWhile isPySpace with
              | ',' :: y => some (run2.take m, y.takeWhile (fun c => c != '\n'))
              | _ => none)
        | _ => none)

/-- Anchor attempt of RE_BIBTEX: caret, whitespace, at sign and the rest. -/
def bibtexAtAnchor (s : Line) : Option (Line × Line) :=
  match s.dropWhile isPySpace with
  | '@' :: u => bibtexAfterAt u
  | _ => none

/-- Search loop of RE_BIBTEX: the caret with MULTILINE anchors the match at
the string start or right after a newline. -/
def bibtexSearchGo : Nat → Line → Option (Line × Line)
  | 0, _ => none
  | fuel + 1, s =>
    match bibtexAtAnchor s with
    | some v => some v
    | none =>
      match s.dropWhile (fun c => c != '\n') with
      | '\n' :: rest => bibtexSearchGo fuel rest
      | _ => none

/-- RE_BIBTEX search: returns (citekey, text) on a match. -/
def reBibtex (s : Line) : Option (Line × Line) := bibtexSearchGo (s.length + 1) s

/-- A greedy line-bounded group followed by a closing brace: candidate
prefixes of the current line in order of decreasing length, each of which
must be followed by a closing brace. -/
def greedyBraceSplits (u : Line) : List (Line × Line) :=
  (descLens (u.takeWhile (fun c => c != '\n')).length).filterMap (fun n =>
    match u.drop n with
    | '\x7d' :: rest => some (u.take n, rest)
    | _ => none)

/-- Attempt of RE_AMSREFS at one position: the bib control sequence,
whitespace, three brace groups with greedy contents, the third left open,
its text running to the line end. -/
def amsrefsAt (s : Line) : Option (Line × Line) :=
  if (L "\\bib").isPrefixOf s then
    match (s.drop 4).dropWhile isPySpace with
    | '\x7b' :: u =>
      (greedyBraceSplits u).findSome? (fun p =>
        let ck := p.1
        match p.2.dropWhile isPySpace with
        | '\x7b' :: v =>
          (greedyBraceSplits v).findSome? (fun q =>
            match q.2.dropWhile isPySpace with
            | '\x7b' :: w => some (ck, w.takeWhile (fun c => c != '\n'))
            | _ => none)
        | _ => none)
    | _ => none
  else none

/-- Search loop of RE_AMSREFS (unanchored). -/
def amsrefsSearchGo : Nat → Line → Option (Line × Line)
  | 0, _ => none
  | fuel + 1, s =>
    match amsrefsAt s with
    | some v => some v
    | none =>
      match s with
      | [] => none
      | _ :: rest => amsrefsSearchGo fuel rest

/-- RE_AMSREFS search: returns (citekey, text) on a match. -/
def reAmsrefs (s : Line) : Option (Line × Line) := amsrefsSearchGo (s.length + 1) s

/-- Status group of RE_BIBL_ENV. -/
inductive EnvSt
  | envBegin
  | envEnd
  deriving DecidableEq, Repr

/-- Environment names accepted by RE_BIBL_ENV in alternation order (the
greedy optional star makes the starred biblist tried first). -/
def biblEnvNames : List Line := [L "thebibliography", L "biblist*", L "biblist"]

/-- Attempt of RE_BIBL_ENV at one position: a backslash, begin or end,
whitespace, then a braced recognized environment name. -/
def biblEnvAt (s : Line) : Option EnvSt :=
  match s with
  | '\\' :: r =>
    let tryKw : Line → EnvSt → Option EnvSt := fun kw st =>
      if kw.isPrefixOf r then
        match (r.drop kw.length).dropWhile isPySpace with
        | '\x7b' :: w =>
          if biblEnvNames.any (fun nm =>
              nm.isPrefixOf w && (w.drop nm.length).head? = some '\x7d')
          then some st else none
        | _ => none
      else none
    match tryKw (L "begin") .envBegin with
    | some st => some st
    | none => tryKw (L "end") .envEnd
  | _ => none

/-- Search loop of RE_BIBL_ENV (unanchored, the leading whitespace of the
pattern may be empty). -/
def biblEnvSearchGo : Nat → Line → Option EnvSt
  | 0, _ => none
  | fuel + 1, s =>
    match biblEnvAt s with
    | some v => some v
    | none =>
      match s with
      | [] => none
      | _ :: rest => biblEnvSearchGo fuel rest

/-- RE_BIBL_ENV search. -/
def reBiblEnv (s : Line) : Option EnvSt := biblEnvSearchGo (s.length + 1) s

/-- Result of RefHandler.find_reference: an environment marker, a held-over
bibitem line (the two-phase recognizer failed its full match), or a
recognized reference item with its regex groups. -/
inductive FRes
  | env (st : EnvSt)
  | hold (l : Line)
  | item (t : RTy) (biblabel : Option Line) (citekey : Option Line) (text : Option Line)
  deriving DecidableEq, Repr

/-- RefHandler.find_reference.  The cheap bibitem check routes to the full
bibitem pattern only; otherwise the environment, bibtex and amsrefs patterns
are tried in dictionary order. -/
def findReference (line : Line) : Option FRes :=
  if reBibre line then
    match reBibref line with
    | some (lbl, ck, txt) => some (.item .bibitem lbl (some ck) (some txt))
    | none => some (.hold line)
  else
    match reBiblEnv line with
    | some st => some (.env st)
    | none =>
      match reBibtex line with
      | some (ck, txt) => some (.item .bibtex none (some ck) (some txt))
      | none =>
        match reAmsrefs line with
        | some (ck, txt) => some (.item .amsrefs none (some ck) (some txt))
        | none => none

/- ----------------------------------------------------------------------
   handle_refs.py: RefElement, and handle_bbl.py: HandleBBL.gather_records
   ---------------------------------------------------------------------- -/

/-- A cite key: the string captured from the source, or the synthetic
sequential integer assigned when the captured one is falsy. -/
inductive CKey
  | str (l : Line)
  | num (n : Nat)
  deriving DecidableEq, Repr

/-- RefElement: the container for one bibliography reference item. -/
structure RefElementM where
  reftype : Option RTy := none
  refid : Option Nat := none
  citekey : Option CKey := none
  biblabel : Option Line := none
  origMrid : Bool := false
  origLines : List Line := []
  cleanedLines : List Line := []
  queryLines : List Line := []
  commentLines : List Line := []
  errno : Option Int := none
  querystringO : Option Line := none
  mrid : Option Line := none
  outref : Option Line := none
  deriving DecidableEq, Repr

instance : Inhabited RefElementM := ⟨{}⟩

/-- Python truth test for a blank line (line.strip() falsy). -/
def isBlankLine (l : Line) : Bool := stripWs l = []

/-- Result record of sort_comments_out. -/
structure SocRes where
  keptRev : List Line
  movedRev : List Line
  comments : List Line
  nextCommentsRev : List Line
  deriving DecidableEq, Repr

/-- Loop of sort_comments_out over the reversed line list: pending blank
lines are skipped until a comment line is met, at which point they move
together with it to the next element; a blank line after the first found
comment, or any other line, stops the walk. -/
def socAux : List Line → List Line → Bool → List Line → List Line → List Line → SocRes
  | [], comments, _, pend, movedRev, ncr => ⟨pend, movedRev, comments, ncr⟩
  | l :: rest, comments, found, pend, movedRev, ncr =>
    if !found && isBlankLine l then
      socAux rest comments found (pend ++ [l]) movedRev ncr
    else if !(isBlankLine l) && comments.contains l then
      socAux rest comments.dropLast true [] (movedRev ++ pend ++ [l])
        (ncr ++ [(comments.getLast?).getD []])
    else
      ⟨pend ++ l :: rest, movedRev, comments, ncr⟩

/-- gather_records.sort_comments_out: split the trailing comment lines (and
the blank lines below them) off the just-sealed element and hand them to the
next element; returns (kept original lines, kept comment lines, moved
original lines, moved comment lines). -/
def sortCommentsOut (origLines commentLines : List Line) :
    List Line × List Line × List Line × List Line :=
  let r := socAux origLines.reverse commentLines false [] [] []
  (r.keptRev.reverse, r.comments, r.movedRev.reverse, r.nextCommentsRev.reverse)

/-- Parameters of the gather model.  The functions stand for the two
auxiliary text transforms of HandleBBL whose content none of the verified
properties depends on: mrCheck is the RE_MR search applied to a line with
the citekey and biblabel strings removed (it only drives the orig_mrid
flag), texNoise is HandleBBL._remove_tex_syntax (it only shapes the derived
query lines).  Every theorem below holds for all instantiations, hence in
particular for the concrete ones of the source. -/
structure GParams where
  requireEnv : Bool
  mrCheck : Line → Option CKey → Option Line → Bool
  texNoise : Line → Line

/-- State of the gather_records loop. -/
structure GSt where
  gather : Bool
  search : Bool
  multiline : Line
  elem : RefElementM
  envstatus : Option EnvSt

/-- Events yielded by gather_records: a sealed reference item, an
environment marker line, a pass-through line tagged with the current
envstatus variable, and the end-of-input mark carrying the joined trailing
lines. -/
inductive GEv
  | item (t : RTy) (e : RefElementM)
  | env (st : EnvSt) (l : Line)
  | passth (tag : Option EnvSt) (l : Line)
  | eofMark (tail : Line)
  deriving DecidableEq, Repr

/-- Seal the open element: run sort_comments_out on it and return the sealed
element together with the fresh element primed with the moved lines. -/
def sealElem (e : RefElementM) : RefElementM × RefElementM :=
  let r := sortCommentsOut e.origLines e.commentLines
  ({ e with origLines := r.1, commentLines := r.2.1 },
   { origLines := r.2.2.1, commentLines := r.2.2.2 })

/-- Open a new reference item on a boundary line (the gather branch of the
ITYPES case): set type, citekey and biblabel, append the raw line, run the
two orig_mrid checks and derive the cleaned and query lines. -/
def openElem (P : GParams) (e0 : RefElementM) (t : RTy) (lbl : Option Line)
    (ck : Option Line) (txt : Option Line) (line clean : Line) : RefElementM :=
  let e := { e0 with reftype := some t, citekey := ck.map CKey.str, biblabel := lbl }
  let e := { e with origLines := e.origLines ++ [line] }
  let e := if P.mrCheck clean e.citekey e.biblabel then { e with origMrid := true } else e
  let e := { e with cleanedLines := e.cleanedLines ++ [clean] }
  let tline := txt.getD clean
  let e := if P.mrCheck tline e.citekey e.biblabel then { e with origMrid := true } else e
  { e with queryLines := e.queryLines ++ [P.texNoise tline] }

/-- Append a continuation line to the open reference item. -/
def appendElem (P : GParams) (e0 : RefElementM) (line clean : Line) : RefElementM :=
  let e := { e0 with origLines := e0.origLines ++ [line] }
  let e := if P.mrCheck clean e.citekey e.biblabel then { e with origMrid := true } else e
  { e with cleanedLines := e.cleanedLines ++ [clean],
           queryLines := e.queryLines ++ [P.texNoise clean] }

/-- The closing branch of the gather loop body: append to the open element
when gathering, otherwise emit the line as pass-through tagged with the
current envstatus (the comparison of envstatus with the environment tag
constant in the source can never hold, envstatus only ever holds begin, end
or none, so that arm is dead and omitted). -/
def gbottom (P : GParams) (st : GSt) (line clean : Line) : GSt × List GEv :=
  if st.gather && st.elem.reftype.isSome then
    ({ st with elem := appendElem P st.elem line clean }, [])
  else
    (st, [.passth st.envstatus line])

/-- The seal-and-replace step shared by the boundary branches of the gather
loop: when a record is open, run sort_comments_out on it, emit it, and prime
a fresh element with the moved lines; when none is open, nothing is emitted
and the element is kept. -/
def sealedEvs (e : RefElementM) : List GEv × RefElementM :=
  match e.reftype with
  | some t => ([GEv.item t (sealElem e).1], (sealElem e).2)
  | none => ([], e)

/-- One iteration of the gather_records loop over one raw input line. -/
def gstep (P : GParams) (st : GSt) (raw : Line) : GSt × List GEv :=
  let line := st.multiline ++ raw
  let clean := removeTexComments line
  if clean = [] && st.elem.origLines ≠ [] then
    let e := st.elem
    let e := { e with origLines := e.origLines ++ [line], commentLines := e.commentLines ++ [line] }
    ({ st with elem := e }, [])
  else
    let fr := if st.search then findReference clean else none
    match fr with
    | some (.env es) =>
      if P.requireEnv then
        let g := es = .envBegin
        ({ st with gather := g, search := g, elem := (sealedEvs st.elem).2, envstatus := some es },
         (sealedEvs st.elem).1 ++ [.env es line])
      else gbottom P st line clean
    | some (.hold l) =>
      if l ≠ [] then ({ st with multiline := l }, [])
      else
        if st.gather then
          ({ st with multiline := [], elem := openElem P (sealedEvs st.elem).2 .bibitem none none none line clean },
           (sealedEvs st.elem).1)
        else
          let r := gbottom P { st with multiline := [], elem := (sealedEvs st.elem).2 } line clean
          (r.1, (sealedEvs st.elem).1 ++ r.2)
    | some (.item t lbl ck txt) =>
      if st.gather then
        ({ st with multiline := [], elem := openElem P (sealedEvs st.elem).2 t lbl ck txt line clean },
         (sealedEvs st.elem).1)
      else
        let r := gbottom P { st with multiline := [], elem := (sealedEvs st.elem).2 } line clean
        (r.1, (sealedEvs st.elem).1 ++ r.2)
    | none => gbottom P st line clean

/-- End-of-input finalization of gather_records: seal and emit the open
element, then yield the end mark with the joined moved trailing lines. -/
def gfinal (st : GSt) : List GEv :=
  match st.elem.reftype with
  | some t =>
    let r := sortCommentsOut st.elem.origLines st.elem.commentLines
    [GEv.item t { st.elem with origLines := r.1, commentLines := r.2.1 },
     .eofMark (concatL r.2.2.1)]
  | none => [.eofMark []]

/-- The gather loop over the remaining input lines. -/
def gatherGo (P : GParams) : GSt → List Line → List GEv
  | st, [] => gfinal st
  | st, l :: rest =>
    let p := gstep P st l
    p.2 ++ gatherGo P p.1 rest

/-- Initial state of gather_records: the envmap entry for the not-found
status makes gathering start enabled exactly when no environment is
required. -/
def gatherInit (P : GParams) : GSt :=
  { gather := !P.requireEnv, search := true, multiline := [], elem := {}, envstatus := none }

/-- HandleBBL.gather_records as a function from the input lines to the event
stream. -/
def gatherRecords (P : GParams) (lines : List Line) : List GEv :=
  gatherGo P (gatherInit P) lines

/-- The reference items of an event stream. -/
def recordsOf (evs : List GEv) : List RefElementM :=
  evs.filterMap (fun ev => match ev with | .item _ e => some e | _ => none)

/-- Text contributed by one event to the reconstructed stream: a record
contributes its original lines, markers and pass-through lines contribute
their line, the end mark its trailing text. -/
def evText : GEv → Line
  | .item _ e => concatL e.origLines
  | .env _ l => l
  | .passth _ l => l
  | .eofMark t => t

/-- The identity instantiation of the abstracted text transforms: no MR
number is ever detected and query lines coincide with cleaned lines.  On
inputs that contain no MR numbers, TeX accents or control sequences this is
extensionally the behaviour of the source functions. -/
def plainParams (requireEnv : Bool) : GParams :=
  { requireEnv := requireEnv, mrCheck := fun _ _ _ => false, texNoise := fun l => l }

/-- Does a raw input line trigger the bibitem continuation hold of
find_reference (the cheap check matches its comment-stripped form but the
full pattern does not)? -/
def holdTriggers (l : Line) : Bool :=
  match findReference (removeTexComments l) with
  | some (.hold _) => true
  | _ => false

/- ----------------------------------------------------------------------
   handle_refs.py: RefElement.mrid setter, RefElement.normalize and
   RefHandler.insert_mrid
   ---------------------------------------------------------------------- -/

/-- The mrid property setter: strip the characters of the literal MR from
the left, then left-pad with zeros to a total width of seven. -/
def mridNormalize (mrid : Line) : Line :=
  let t := mrid.dropWhile (fun c => c = 'M' || c = 'R')
  List.replicate (7 - t.length) '0' ++ t

/-- One token of the line-end pattern: an optional carriage return followed
by a newline. -/
def nlTok : Line → Option Line
  | '\n' :: r => some r
  | '\r' :: '\n' :: r => some r
  | _ => none

/-- Does RE_PAR, two consecutive line-end tokens, match at this position. -/
def reParMatchAt (s : Line) : Bool :=
  match nlTok s with
  | some r => (nlTok r).isSome
  | none => false

/-- Position search for RE_PAR. -/
def reParSearchGo : Line → Nat → Option Nat
  | [], _ => none
  | c :: rest, i =>
    if reParMatchAt (c :: rest) then some i else reParSearchGo rest (i + 1)

/-- RE_PAR search: index of the first paragraph break. -/
def reParSearch (s : Line) : Option Nat := reParSearchGo s 0

/-- RE_LINEEND substitution: every maximal run of line-end tokens is
replaced by one newline.  The boolean records whether the previous consumed
token belonged to a run. -/
def reLineendGo : Nat → Bool → Line → Line
  | 0, _, s => s
  | fuel + 1, inRun, s =>
    match nlTok s with
    | some r => if inRun then reLineendGo fuel true r else '\n' :: reLineendGo fuel true r
    | none =>
      match s with
      | [] => []
      | c :: r => c :: reLineendGo fuel false r

/-- RE_LINEEND.sub with a single newline. -/
def reLineendSub (s : Line) : Line := reLineendGo (s.length + 1) false s

/-- The strip set of insert_mrid before the splice point: newline, tab,
space and comma. -/
def mrStripChars : Line := ['\n', '\t', ' ', ',']

/-- RefHandler.insert_mrid: format the MR number for the reference family
and splice it in front of the last occurrence of the family ending; without
an ending, fall back to the first paragraph break, then to the end. -/
def insertMrid (reftype : Option RTy) (refstring mrid : Line) : Line :=
  match reftype with
  | none => reLineendSub refstring ++ L "\\MR\x7b" ++ mrid ++ L "\x7d\n\n"
  | some t =>
    let mrString := MR_FORMAT t mrid
    match rfindSub refstring (REF_ENDING t) with
    | some i =>
      stripSet mrStripChars (refstring.take i) ++ mrString ++ lstripWs (refstring.drop i)
    | none =>
      match reParSearch refstring with
      | some p =>
        stripSet mrStripChars (refstring.take p) ++ (mrString ++ ['\n'])
          ++ lstripWs (refstring.drop p)
      | none => stripWs refstring ++ mrString ++ ['\n']

/-- Whitespace-run collapsing of RefElement.normalize (re.sub of one or more
whitespace characters with one space); the boolean records whether the
previous character was whitespace. -/
def collapseWsGo : Line → Bool → Line
  | [], _ => []
  | c :: rest, prevWs =>
    if isPySpace c then
      (if prevWs then collapseWsGo rest true else ' ' :: collapseWsGo rest true)
    else c :: collapseWsGo rest false

/-- RefElement.normalize: join the lines, collapse whitespace, strip, and
cut at the last occurrence of the family ending when the type is known. -/
def normalizeRef (reftype : Option RTy) (lines : List Line) : Line :=
  let s := stripWs (collapseWsGo (concatL lines) false)
  match reftype with
  | some t =>
    (match rfindSub s (REF_ENDING t) with
     | some i => stripWs (s.take i)
     | none => s)
  | none => s

/-- The querystring property of RefElement: the explicit override when one
was assigned, otherwise the normalization of the query lines. -/
def qsOf (e : RefElementM) : Line := e.querystringO.getD (normalizeRef e.reftype e.queryLines)

/- ----------------------------------------------------------------------
   handle_query.py: QueryHandler, and handle_bbl.py: the batch controller
   (HandleBBL.get_mr_codes and HandleBBL.transfer_to_file)
   ---------------------------------------------------------------------- -/

/-- The output reference formats of the command line. -/
inductive OType
  | tex
  | bibtex
  | ims
  | amsrefs
  | html
  deriving DecidableEq, Repr

/-- QUERY_FORMATS: the outtype attribute sent for each requested output
format; absent or unrecognized formats fall back to tex. -/
def queryFormat : Option OType → Line
  | some .tex => L "tex"
  | some .bibtex => L "bibtex"
  | some .ims => L "bibtex"
  | some .amsrefs => L "amsrefs"
  | some .html => L "html"
  | none => L "tex"

/-- QueryHandler._escape_xml_entities: the three replacements applied in the
order of HMTL_ENTITIES_MAP. -/
def escapeXmlEntities (s : Line) : Line :=
  replaceAll (L "&") (L "&amp;") (replaceAll (L ">") (L "&gt;") (replaceAll (L "<") (L "&lt;") s))

/-- QueryHandler._encode_str: the identity for ASCII input, otherwise every
non-ASCII character is replaced (errors replace of the ascii codec). -/
def encodeStr (asciiEnc : Bool) (s : Line) : Line :=
  if asciiEnc then s else s.map (fun c => if c.toNat < 128 then c else '?')

/-- One mref_item fragment: the joined QUERY_ITEM_PATTERN with the output
format, escaped query string and correlation id filled in. -/
def queryItemXml (fmt qs : Line) (refid : Nat) : Line :=
  L "<mref_item outtype=\"" ++ fmt ++ L "\">\n <inref>\n  " ++ qs
    ++ L "\n </inref>\n <myid>" ++ L (Nat.repr refid) ++ L "</myid>\n</mref_item>\n"

/-- A fragment of the service response, already split per item and parsed
(the envelope splitting by RE_MREF_ITEM and the per-fragment XML parsing
are the abstracted transport boundary): the echoed correlation id, the
match flag, and the optional mrid and outref element contents. -/
structure RFrag where
  refid : Nat
  matchFlag : Bool
  mrid : Option Line
  outref : Option Line
  deriving DecidableEq, Repr

/-- Outcome of one network interaction as seen by _send_query: a request
exception, or a response with its status code, whether the body starts with
the XML heading, whether it contains a batch_error element, and its
fragments. -/
inductive QOutcome
  | exnFail
  | resp (code : Int) (xmlHead : Bool) (batchErr : Bool) (frags : List RFrag)
  deriving DecidableEq, Repr

/-- The uncaught exceptions the reconciliation code can raise: an attribute
access on the absent element when no record matches the echoed id, and an
attribute access on the absent outref when an output format was requested
but the fragment carries none. -/
inductive CrashE
  | correlationMiss
  | outrefMiss
  deriving DecidableEq, Repr

/-- Statistics counters of StatisticsData. -/
structure StatsM where
  TOTAL : Nat := 0
  SUCCESS : Nat := 0
  NOT_FOUND : Nat := 0
  SKIP : Nat := 0
  ERROR : Nat := 0
  deriving DecidableEq, Repr

/-- The final classification of a record in transfer_to_file, in the order
of its branch cascade. -/
inductive Outcome
  | found
  | notFound
  | skipHasMr
  | skipDisabled
  | queryError
  deriving DecidableEq, Repr

/-- Parameters of the controller model.  xmlCheck is the expat validation of
a formed fragment (zero meaning the string parses); insertCK abstracts
RefHandler.insert_citekey, whose output none of the verified properties
inspects; both are quantified over in every theorem. -/
structure CParams where
  limit : Nat
  disableQueries : Bool
  cleanComments : Bool
  debug : Nat
  outputtype : Option OType
  asciiEnc : Bool
  xmlCheck : Line → Int
  insertCK : Option Line → Option CKey → Option Line → Line → Option Line

/-- State of the controller: the statistics, the running batch counter
valid, the synthetic citekey counter, the open refs container and its batch
error code, the pending query fragments (with their correlation ids kept
alongside the formatted strings), and the observable outputs: the dispatch
trace, the flushed records with their outcomes, the accumulated output
texts, the held back trailing lines and the end-of-input flag. -/
structure CState where
  stats : StatsM := {}
  valid : Nat := 0
  pseudoCitekey : Nat := 0
  container : List RefElementM := []
  qerrno : Option Int := none
  queryElems : List (Nat × Line) := []
  queryCount : Nat := 0
  sentBatches : List (List (Nat × Line)) := []
  flushed : List (RefElementM × Outcome) := []
  outData : Line := []
  dataOut : Line := []
  auxData : Line := []
  ifileEndLines : List Line := []
  eofFlag : Bool := false
  deriving DecidableEq, Repr

instance : Inhabited CState := ⟨{}⟩

/-- RefsContainer.get_elem_by_refid: the first element with the id. -/
def getElemByRefid (elems : List RefElementM) (refid : Nat) : Option RefElementM :=
  (elems.filter (fun e => e.refid = some refid)).head?

/-- Mutation of the object returned by get_elem_by_refid: rewrite the first
element carrying the id. -/
def updateFirstByRefid (elems : List RefElementM) (refid : Nat)
    (f : RefElementM → RefElementM) : List RefElementM :=
  match elems with
  | [] => []
  | e :: rest =>
    if e.refid = some refid then f e :: rest
    else e :: updateFirstByRefid rest refid f

/-- QueryHandler._analyze_xml on one response fragment: look the record up
by the echoed id (an unknown id raises an attribute error at once); a match
stores the normalized mrid and, when an output format was requested, the
outref (whose absence then raises an attribute error in the following log
call); no match stores the not-found error code. -/
def analyzeXml (outputtype : Option OType) (elems : List RefElementM) (frag : RFrag) :
    Except CrashE (List RefElementM) :=
  match getElemByRefid elems frag.refid with
  | none => .error .correlationMiss
  | some _ =>
    if frag.matchFlag then
      if outputtype.isSome && frag.outref = none then .error .outrefMiss
      else
        .ok (updateFirstByRefid elems frag.refid (fun e =>
          let e := match frag.mrid with
            | some m => { e with mrid := some (mridNormalize m) }
            | none => e
          if outputtype.isSome then { e with outref := frag.outref } else e))
    else
      .ok (updateFirstByRefid elems frag.refid (fun e => { e with errno := some (-1) }))

/-- QueryHandler._send_query distilled to its observable result: the final
qcode and qresult after the success checks (a request exception yields the
FAILED code; a non-success status or a body without the XML heading clears
the result and forces a failing code). -/
def querySend (disable : Bool) (out : QOutcome) : Option Int × Option (Bool × List RFrag) :=
  if disable then (none, none)
  else match out with
    | .exnFail => (some 412, none)
    | .resp code xmlHead batchErr frags =>
      if code = 200 && xmlHead then (some 200, some (batchErr, frags))
      else ((if code ≠ 200 then some code else some 412), none)

/-- Does the network interaction fail at the transport level (request
exception, non-success status, or a body without the XML heading). -/
def transportFails : QOutcome → Bool
  | .exnFail => true
  | .resp code xmlHead _ _ => !(code = 200 && xmlHead)

/-- The qcode _send_query reports on a transport-level failure. -/
def failCodeOf : QOutcome → Int
  | .exnFail => 412
  | .resp code _ _ _ => if code ≠ 200 then code else 412

/-- QueryHandler.query: send the batch, derive the error code from qcode,
analyze the fragments of a successful response (a batch_error element turns
the code to minus two but the fragments are still processed), record the
batch error code on the container when a query was sent or failed, and clear
the outgoing fragment list.  The dispatch trace records the fragment list of
every invocation.  queryFinish is the shared closing part. -/
def queryFinish (qcode : Option Int) (errno : Int) (st1 : CState) : CState :=
  let st2 := if errno ≠ 0 || qcode ≠ none then { st1 with qerrno := some errno } else st1
  { st2 with sentBatches := st2.sentBatches ++ [st2.queryElems],
             queryElems := [], queryCount := st2.queryCount + 1 }

/-- QueryHandler.query, see the comment above queryFinish. -/
def queryRun (P : CParams) (out : QOutcome) (st : CState) : Except CrashE CState :=
  let sr := querySend P.disableQueries out
  let errno0 : Int := if sr.1 = some 200 || sr.1 = none then 0 else sr.1.getD 0
  match (if errno0 = 0 then sr.2 else none) with
  | some br =>
    (match br.2.foldlM (fun es f => analyzeXml P.outputtype es f) st.container with
     | .ok elems =>
       .ok (queryFinish sr.1 (if br.1 then -2 else errno0) { st with container := elems })
     | .error c => .error c)
  | none => .ok (queryFinish sr.1 errno0 st)

/-- QueryHandler.prepare_query_str: build the fragment, validate it, and on
success hand it back for appending; a failing validation returns its error
code and no fragment. -/
def prepareQueryStr (P : CParams) (refid : Nat) (qs : Line) : Int × Option (Nat × Line) :=
  let frag := encodeStr P.asciiEnc (queryItemXml (queryFormat P.outputtype) (escapeXmlEntities qs) refid)
  let c := P.xmlCheck frag
  if c = 0 then (0, some (refid, frag)) else (c, none)

/-- Python string interpolation of a citekey value. -/
def reprCKey : Option CKey → Line
  | none => L "None"
  | some (.str l) => l
  | some (.num n) => L (Nat.repr n)

/-- Python string interpolation of the errno attribute. -/
def reprErrno : Option Int → Line
  | none => L "None"
  | some i => L (toString i)

/-- Python truth test on the captured citekey (absent or empty is falsy). -/
def ckFalsy : Option CKey → Bool
  | none => true
  | some (.str l) => l = []
  | some (.num n) => n = 0

/-- The skip message for a record whose source already carries an MR id. -/
def skipHasMrMsg (ck : Option CKey) : Line :=
  L "Skipping: \x7b" ++ reprCKey ck ++ L "\x7d -> MR already present"

/-- The skip message for a record skipped because queries are disabled. -/
def skipDisabledMsg (ck : Option CKey) : Line :=
  L "Skipping: \x7b" ++ reprCKey ck ++ L "\x7d -> option --disable_queries used"

/-- Result of transfer_to_file for a single record. -/
structure TransferRes where
  elem : RefElementM
  outcome : Outcome
  outstring : Line
  msg : Line
  deriving DecidableEq, Repr

/-- The per-record body of transfer_to_file: inherit the batch error code,
build the output string, attach the reformatted reference, classify the
record by the branch cascade and apply the comment and debug decorations. -/
def transferElem (P : CParams) (qerrno : Option Int) (e0 : RefElementM) : TransferRes :=
  let e1 := if qerrno ≠ some 0 then { e0 with errno := qerrno } else e0
  let outstring := concatL (if P.cleanComments then e1.cleanedLines else e1.origLines)
  let e := { e1 with outref := P.insertCK e1.outref e1.citekey e1.biblabel
                       (normalizeRef e1.reftype (e1.cleanedLines.drop 1)) }
  let r : Outcome × Line × Line :=
    match e.mrid with
    | some m =>
      (.found, insertMrid e.reftype outstring m,
       L "Found: \x7b" ++ reprCKey e.citekey ++ L "\x7d -> MR" ++ m)
    | none =>
      if e.errno = some (-1) then
        (.notFound, outstring, L "NotFound: \x7b" ++ reprCKey e.citekey ++ L "\x7d")
      else if e.origMrid then (.skipHasMr, outstring, skipHasMrMsg e.citekey)
      else if P.disableQueries then (.skipDisabled, outstring, skipDisabledMsg e.citekey)
      else (.queryError, outstring,
        L "QueryError: \x7b" ++ reprCKey e.citekey ++ L "\x7d -> see *.err file")
  let outstring := r.2.1
  let outstring := if P.cleanComments && P.debug > 0 then concatL e.commentLines ++ outstring
    else outstring
  let outstring :=
    if P.debug = 1 then L "%% " ++ qsOf e ++ ['\n'] ++ outstring
    else if P.debug = 2 then L "%% " ++ reprErrno e.errno ++ ['\n'] ++ outstring
    else if P.debug = 3 then
      L "%% " ++ qsOf e ++ ['\n'] ++ L "%% " ++ reprErrno e.errno ++ ['\n'] ++ outstring
    else outstring
  ⟨e, r.1, outstring, r.2.2⟩

/-- Increment the statistics counter selected by the classification branch. -/
def bumpStats (s : StatsM) (o : Outcome) : StatsM :=
  match o with
  | .found => s
  | .notFound => { s with NOT_FOUND := s.NOT_FOUND + 1 }
  | .skipHasMr => { s with SKIP := s.SKIP + 1 }
  | .skipDisabled => { s with SKIP := s.SKIP + 1 }
  | .queryError => { s with ERROR := s.ERROR + 1 }

/-- HandleBBL.transfer_to_file: run the per-record body over the container,
accumulate the outputs, count the success records, flush the trailing lines
after the end of input and reset the container and its batch error code.
transferFold is the loop body over one container element. -/
def transferFold (P : CParams) (qerrno : Option Int) (acc : CState) (e : RefElementM) : CState :=
  let r := transferElem P qerrno e
  let stats := bumpStats acc.stats r.outcome
  let stats := if r.elem.errno = some 0 && qerrno = some 0 && !r.elem.origMrid then
      { stats with SUCCESS := stats.SUCCESS + 1 } else stats
  { acc with
    stats := stats,
    flushed := acc.flushed ++ [(r.elem, r.outcome)],
    outData := acc.outData ++ r.outstring,
    dataOut := acc.dataOut ++ (r.elem.outref.getD []),
    auxData := acc.auxData ++ L "\\citation\x7b" ++ reprCKey r.elem.citekey ++ L "\x7d\n" }

def transferToFile (P : CParams) (st : CState) : CState :=
  let st1 := st.container.foldl (transferFold P st.qerrno) st
  let st2 := if st1.eofFlag then
      { st1 with outData := st1.outData ++ concatL st1.ifileEndLines, ifileEndLines := [] }
    else st1
  { st2 with container := [], qerrno := none }

/-- The acceptance body of get_mr_codes for one recognized reference item:
count it, assign the correlation id, default the citekey, derive the
querystring for the key-value families, append it to the container and,
unless its source already carries an MR id, prepare and validate its query
fragment.  acceptElem is the preparation of the element itself. -/
def acceptElem (st : CState) (t : RTy) (e0 : RefElementM) : RefElementM :=
  let e := { e0 with refid := some (st.stats.TOTAL + 1) }
  let e := if ckFalsy e0.citekey then { e with citekey := some (.num (st.pseudoCitekey + 1)) } else e
  if t ≠ .bibitem then { e with querystringO := some (extractKeysData e.queryLines) } else e

def acceptRecord (P : CParams) (st : CState) (t : RTy) (e0 : RefElementM) : CState :=
  let e := acceptElem st t e0
  let st1 := { st with stats := { st.stats with TOTAL := st.stats.TOTAL + 1 }, pseudoCitekey := if ckFalsy e0.citekey then st.pseudoCitekey + 1 else st.pseudoCitekey }
  if !e.origMrid then
    let pr := prepareQueryStr P (st.stats.TOTAL + 1) (qsOf e)
    let st2 := { st1 with container := st1.container ++ [{ e with errno := some pr.1 }] }
    let st2 := { st2 with queryElems := st2.queryElems ++ pr.2.toList }
    { st2 with valid := if pr.1 = 0 then st2.valid + 1 else st2.valid }
  else
    { st1 with container := st1.container ++ [e] }

/-- The event-routing half of one get_mr_codes loop iteration: accept a
recognized item into the open batch (unless the batch counter says it is
full, which the flush below prevents from persisting) or pass the
non-reference data through to the proper output buffer. -/
def croute (P : CParams) (st : CState) (ev : GEv) : CState :=
  match ev with
  | .eofMark tail =>
    { st with eofFlag := true, ifileEndLines := st.ifileEndLines ++ [tail] }
  | .env es l =>
    if es = .envEnd then { st with ifileEndLines := st.ifileEndLines ++ [l] }
    else { st with outData := st.outData ++ l }
  | .passth tag l =>
    if tag = some .envEnd then { st with ifileEndLines := st.ifileEndLines ++ [l] }
    else { st with outData := st.outData ++ l }
  | .item t e =>
    if st.valid = 0 || st.valid % P.limit ≠ 0 then acceptRecord P st t e else st

/-- One iteration of the get_mr_codes loop over one gathered event: route
the event, then flush (query, transfer, reset of the batch counter) when the
batch is complete or the input ended. -/
def cstep (P : CParams) (oracle : Nat → QOutcome) (st : CState) (ev : GEv) :
    Except CrashE CState :=
  let st1 := croute P st ev
  if st1.valid ≠ 0 && (st1.valid % P.limit = 0 || st1.eofFlag) then
    match queryRun P (oracle st1.queryCount) st1 with
    | .ok st2 => .ok { transferToFile P st2 with valid := 0 }
    | .error c => .error c
  else .ok st1

/-- One pass of HandleBBL.get_mr_codes over a gathered event stream (the
whole-file retry on an empty environment harvest reruns the same pass on a
second stream; the inter-batch sleep has no observable effect), followed by
the final transfer_to_file. -/
def runPass (P : CParams) (oracle : Nat → QOutcome) (evs : List GEv) :
    Except CrashE CState :=
  match evs.foldlM (cstep P oracle) ({} : CState) with
  | .ok st => .ok (transferToFile P st)
  | .error c => .error c

/-- The batch discipline invariant of the get_mr_codes loop: the open
fragment list is exactly as long as the batch counter, the open batch is
strictly below the item limit, every dispatched batch respects the limit,
and the records flushed so far followed by the open container hold every
accepted record exactly once, in correlation id order. -/
def CInv (P : CParams) (st : CState) : Prop :=
  st.queryElems.length = st.valid ∧
  st.valid < P.limit ∧
  (∀ b ∈ st.sentBatches, b.length ≤ P.limit) ∧
  st.flushed.map (fun p => p.1.refid) ++ st.container.map (fun e => e.refid)
    = (List.range' 1 st.stats.TOTAL).map some

/- ----------------------------------------------------------------------
   Helper lemmas
   ---------------------------------------------------------------------- -/

theorem head?_dropWhile_not (p : Char → Bool) (l : Line) :
    ∀ c, (l.dropWhile p).head? = some c → p c = false := by
  induction l with
  | nil => intro c h; simp [List.dropWhile] at h
  | cons a t ih =>
    intro c h
    by_cases hp : p a
    · rw [List.dropWhile_cons_of_pos hp] at h
      exact ih c h
    · rw [List.dropWhile_cons_of_neg hp] at h
      simp at h
      subst h
      exact Bool.not_eq_true _ ▸ (by simpa using hp)

theorem rstripSet_getLast_not (set s : Line) :
    ∀ c, (rstripSet set s).getLast? = some c → set.contains c = false := by
  intro c h
  unfold rstripSet at h
  rw [List.getLast?_reverse] at h
  exact head?_dropWhile_not _ _ c h

theorem stripSet_getLast_not (set s : Line) :
    ∀ c, (stripSet set s).getLast? = some c → set.contains c = false := by
  intro c h
  exact rstripSet_getLast_not set _ c h

/- ----------------------------------------------------------------------
   C10
   ---------------------------------------------------------------------- -/

/-- C10: for every user-supplied per-batch item count, the effective batch
limit computed by the controller constructor is the minimum of the count and
the service limit of one hundred. -/
theorem C10_effective_limit_is_min (itemno : Int) :
    effectiveQueryItemsLimit itemno = min itemno 100 := by
  rw [min_def]
  unfold effectiveQueryItemsLimit QUERY_ITEMS_LIMIT
  split_ifs <;> omega

/- ----------------------------------------------------------------------
   C2
   ---------------------------------------------------------------------- -/

/-- C2: on the three key-value lines carrying the author, title and year
fields, extract_keys_data returns exactly the comma-separated values in
canonical slot order, for every order of the input lines. -/
theorem C2_query_canonical_order :
    ∀ l ∈ ([ [L "author=Smith, J.", L "title=On Widgets", L "year=1999"],
             [L "author=Smith, J.", L "year=1999", L "title=On Widgets"],
             [L "title=On Widgets", L "author=Smith, J.", L "year=1999"],
             [L "title=On Widgets", L "year=1999", L "author=Smith, J."],
             [L "year=1999", L "author=Smith, J.", L "title=On Widgets"],
             [L "year=1999", L "title=On Widgets", L "author=Smith, J."] ] : List (List Line)),
      extractKeysData l = L "Smith, J., On Widgets, 1999" := by decide

/-- Witness for C2 at one concrete permutation. -/
theorem C2_query_canonical_order_witness :
    extractKeysData [L "year=1999", L "author=Smith, J.", L "title=On Widgets"]
      = L "Smith, J., On Widgets, 1999" :=
  C2_query_canonical_order _ (by decide)

/- ----------------------------------------------------------------------
   C8
   ---------------------------------------------------------------------- -/

/-- C8, counterexample: the claim says that all values of a repeated
user-facing key accumulate in its canonical slot; but when a different
matched key intervenes, the repeated occurrence is dropped entirely: with
lines author=A, title=T, author=B the result is exactly A, T and the value
B does not appear anywhere in it. -/
theorem C8_counterexample :
    extractKeysData [L "author=A", L "title=T", L "author=B"] = L "A, T" ∧
    (extractKeysData [L "author=A", L "title=T", L "author=B"]).contains 'B' = false := by
  decide

/-- C8, amended: values of a repeated key accumulate in its slot only while
it is still the active key of the loop context; a line whose key matches no
synonym clears the active slot context; and with a cleared context a
continuation line leaves the state untouched, so it is not attributed to
the previously active slot. -/
theorem C8_amended :
    (∀ (st : EKState) (line k0 v : Line) (i : Nat),
      stripSet kvStripChars line ≠ [] →
      reKeyValue line = some (k0, v) →
      slotIndexOf (k0.map Char.toLower) = some i →
      (ekLookup st.refData i).isSome →
      st.currentUserKey = some (k0.map Char.toLower) →
      (ekStep st line).refData
        = ekInsert st.refData i
            ((ekLookup st.refData i).getD [] ++ (stripSet kvStripChars v ++ L ", "))) ∧
    (∀ (st : EKState) (line k0 v : Line),
      stripSet kvStripChars line ≠ [] →
      reKeyValue line = some (k0, v) →
      slotIndexOf (k0.map Char.toLower) = none →
      (ekStep st line).currentKeyIndex = none ∧ (ekStep st line).currentUserKey = none) ∧
    (∀ (st : EKState) (line : Line),
      stripSet kvStripChars line ≠ [] →
      reKeyValue line = none →
      st.currentKeyIndex = none →
      ekStep st line = st) := by
  have hne0 : ∀ (d : List (Nat × Line)) (i : Nat), (ekLookup d i).isSome → ¬ ekLookup d i = none := by
    intro d i hsome h; rw [h] at hsome; simp at hsome
  refine ⟨?_, ?_, ?_⟩
  · intro st line k0 v i hst hkv hslot hsome hcur
    unfold ekStep
    rw [if_neg hst, hkv]
    dsimp only
    rw [hslot]
    dsimp only
    rw [if_neg (hne0 _ _ hsome), if_pos hcur]
  · intro st line k0 v hst hkv hslot
    unfold ekStep
    rw [if_neg hst, hkv]
    dsimp only
    rw [hslot]
    exact ⟨rfl, rfl⟩
  · intro st line hst hkv hcur
    unfold ekStep
    rw [if_neg hst, hkv]
    dsimp only
    rw [hcur]

/-- Witness for the amended C8 at concrete inputs: the state after the lines
author=A and author=B holds the accumulated slot; an unrecognized key clears
the context; a continuation line with a cleared context changes nothing. -/
theorem C8_amended_witness :
    (ekStep (ekStep ⟨[], none, none⟩ (L "author=A")) (L "author=B")).refData
        = ekInsert (ekStep ⟨[], none, none⟩ (L "author=A")).refData 0
            ((ekLookup (ekStep ⟨[], none, none⟩ (L "author=A")).refData 0).getD []
              ++ (stripSet kvStripChars (L "B") ++ L ", ")) ∧
    ((ekStep ⟨[(0, L "A, ")], some 0, some (L "author")⟩ (L "weird=w")).currentKeyIndex = none
      ∧ (ekStep ⟨[(0, L "A, ")], some 0, some (L "author")⟩ (L "weird=w")).currentUserKey = none) ∧
    ekStep ⟨[(0, L "A, ")], none, none⟩ (L "continuation text") = ⟨[(0, L "A, ")], none, none⟩ := by
  refine ⟨?_, ?_, ?_⟩
  · exact C8_amended.1 _ _ (L "author") (L "B") 0 (by decide) (by decide) (by decide)
      (by decide) (by decide)
  · exact C8_amended.2.1 _ _ (L "weird") (L "w") (by decide) (by decide) (by decide)
  · exact C8_amended.2.2 _ _ (by decide) (by decide) rfl

/- ----------------------------------------------------------------------
   C3
   ---------------------------------------------------------------------- -/

/-- C3: the identifier MR123 returned by the lookup is normalized by the
mrid setter to 0000123 (alphabetic prefix stripped, zero-padded to seven
digits), and insert_mrid for the user-authored family splices the formatted
MR token immediately before the last occurrence of the endbibitem closing
token, stripping whitespace and trailing commas off the preceding text, so
that the spliced-before text never ends in a comma. -/
theorem C3_mrid_insertion :
    mridNormalize (L "MR123") = L "0000123" ∧
    ∀ (refstring : Line) (i : Nat),
      rfindSub refstring (L "\\endbibitem") = some i →
      insertMrid (some .bibitem) refstring (L "0000123")
          = stripSet mrStripChars (refstring.take i) ++ L "\n\\MR\x7b0000123\x7d\n"
            ++ lstripWs (refstring.drop i) ∧
      (stripSet mrStripChars (refstring.take i)).getLast? ≠ some ',' := by
  constructor
  · decide
  · intro refstring i h
    constructor
    · unfold insertMrid
      dsimp only
      rw [show REF_ENDING RTy.bibitem = L "\\endbibitem" from rfl, h]
      rfl
    · intro hc
      have := stripSet_getLast_not mrStripChars (refstring.take i) ',' hc
      simp [mrStripChars] at this

/-- Witness for C3 at a concrete user-authored record. -/
theorem C3_mrid_insertion_witness :
    rfindSub (L "\\bibitem\x7ba\x7d Text,\n\\endbibitem\n") (L "\\endbibitem") = some 18 ∧
    insertMrid (some .bibitem) (L "\\bibitem\x7ba\x7d Text,\n\\endbibitem\n") (L "0000123")
        = L "\\bibitem\x7ba\x7d Text\n\\MR\x7b0000123\x7d\n\\endbibitem\n" := by
  constructor
  · decide
  · have h := (C3_mrid_insertion.2 (L "\\bibitem\x7ba\x7d Text,\n\\endbibitem\n") 18 (by decide)).1
    rw [h]
    decide

/- ----------------------------------------------------------------------
   Structural lemmas about the gather machine
   ---------------------------------------------------------------------- -/

theorem sealElem_fst_cleaned (e : RefElementM) : (sealElem e).1.cleanedLines = e.cleanedLines := rfl

theorem sealElem_fst_query (e : RefElementM) : (sealElem e).1.queryLines = e.queryLines := rfl

theorem sealElem_fst_reftype (e : RefElementM) : (sealElem e).1.reftype = e.reftype := rfl

theorem sealElem_snd_cleaned (e : RefElementM) : (sealElem e).2.cleanedLines = [] := rfl

theorem sealElem_snd_query (e : RefElementM) : (sealElem e).2.queryLines = [] := rfl

theorem sealElem_snd_reftype (e : RefElementM) : (sealElem e).2.reftype = none := rfl

theorem openElem_cleaned (P : GParams) (e0 : RefElementM) (t : RTy) (lbl ck txt : Option Line)
    (line clean : Line) :
    (openElem P e0 t lbl ck txt line clean).cleanedLines = e0.cleanedLines ++ [clean] := by
  unfold openElem
  dsimp only
  split <;> split <;> rfl

theorem openElem_query (P : GParams) (e0 : RefElementM) (t : RTy) (lbl ck txt : Option Line)
    (line clean : Line) :
    (openElem P e0 t lbl ck txt line clean).queryLines
      = e0.queryLines ++ [P.texNoise (txt.getD clean)] := by
  unfold openElem
  dsimp only
  split <;> split <;> rfl

theorem openElem_orig (P : GParams) (e0 : RefElementM) (t : RTy) (lbl ck txt : Option Line)
    (line clean : Line) :
    (openElem P e0 t lbl ck txt line clean).origLines = e0.origLines ++ [line] := by
  unfold openElem
  dsimp only
  split <;> split <;> rfl

theorem openElem_reftype (P : GParams) (e0 : RefElementM) (t : RTy) (lbl ck txt : Option Line)
    (line clean : Line) :
    (openElem P e0 t lbl ck txt line clean).reftype = some t := by
  unfold openElem
  dsimp only
  split <;> split <;> rfl

theorem appendElem_cleaned (P : GParams) (e0 : RefElementM) (line clean : Line) :
    (appendElem P e0 line clean).cleanedLines = e0.cleanedLines ++ [clean] := by
  unfold appendElem
  dsimp only
  split <;> rfl

theorem appendElem_query (P : GParams) (e0 : RefElementM) (line clean : Line) :
    (appendElem P e0 line clean).queryLines = e0.queryLines ++ [P.texNoise clean] := by
  unfold appendElem
  dsimp only
  split <;> rfl

theorem appendElem_orig (P : GParams) (e0 : RefElementM) (line clean : Line) :
    (appendElem P e0 line clean).origLines = e0.origLines ++ [line] := by
  unfold appendElem
  dsimp only
  split <;> rfl

theorem appendElem_reftype (P : GParams) (e0 : RefElementM) (line clean : Line) :
    (appendElem P e0 line clean).reftype = e0.reftype := by
  unfold appendElem
  dsimp only
  split <;> rfl

theorem recordsOf_mem {evs : List GEv} {e : RefElementM} :
    e ∈ recordsOf evs ↔ ∃ t, GEv.item t e ∈ evs := by
  unfold recordsOf
  rw [List.mem_filterMap]
  constructor
  · rintro ⟨ev, hmem, hev⟩
    cases ev with
    | item t x => simp at hev; exact ⟨t, hev ▸ hmem⟩
    | env st l => simp at hev
    | passth tg l => simp at hev
    | eofMark l => simp at hev
  · rintro ⟨t, ht⟩
    exact ⟨.item t e, ht, rfl⟩

/-- The moved lines of sort_comments_out are exactly the tail split off the
kept lines: kept append moved recovers the original list. -/
theorem socAux_append (rev : List Line) : ∀ (c : List Line) (f : Bool) (pend mR ncr : List Line),
    (socAux rev c f pend mR ncr).keptRev.reverse ++ (socAux rev c f pend mR ncr).movedRev.reverse
      = (mR ++ pend ++ rev).reverse := by
  induction rev with
  | nil =>
    intro c f pend mR ncr
    unfold socAux
    simp
  | cons l rest ih =>
    intro c f pend mR ncr
    unfold socAux
    split
    · rw [ih]
      congr 1
      simp
    · split
      · rw [ih]
        congr 1
        simp
      · simp

theorem sortCommentsOut_append (o c : List Line) :
    (sortCommentsOut o c).1 ++ (sortCommentsOut o c).2.2.1 = o := by
  unfold sortCommentsOut
  dsimp only
  rw [socAux_append]
  simp

theorem sealElem_orig_append (e : RefElementM) :
    (sealElem e).1.origLines ++ (sealElem e).2.origLines = e.origLines := by
  unfold sealElem
  dsimp only
  exact sortCommentsOut_append _ _

/- ----------------------------------------------------------------------
   C4
   ---------------------------------------------------------------------- -/

/-- C4, counterexample: the claim says content_lines and query_lines have
exactly the length of original_lines for every emitted record; but a record
containing an interior comment-only line keeps that line in original_lines
while content_lines and query_lines skip it, so the lengths differ (three
against two on the input below). -/
theorem C4_counterexample :
    ¬ (∀ (P : GParams) (lines : List Line), ∀ e ∈ recordsOf (gatherRecords P lines),
        e.cleanedLines.length = e.origLines.length ∧
        e.queryLines.length = e.origLines.length) := by
  intro hcl
  have h := hcl (plainParams false)
    [L "\\bibitem\x7ba\x7d X\n", L "% c\n", L "more text\n", L "\\bibitem\x7bb\x7d Y\n"]
    ((recordsOf (gatherRecords (plainParams false)
      [L "\\bibitem\x7ba\x7d X\n", L "% c\n", L "more text\n", L "\\bibitem\x7bb\x7d Y\n"])).headD default)
    (by decide)
  exact absurd h.1 (by decide)

theorem sealedEvs_snd_lenEq (x : RefElementM)
    (h : x.cleanedLines.length = x.queryLines.length) :
    (sealedEvs x).2.cleanedLines.length = (sealedEvs x).2.queryLines.length := by
  unfold sealedEvs
  split
  · rw [sealElem_snd_cleaned, sealElem_snd_query]
  · exact h

theorem sealedEvs_mem_lenEq (x : RefElementM)
    (h : x.cleanedLines.length = x.queryLines.length) :
    ∀ t e, GEv.item t e ∈ (sealedEvs x).1 →
      e.cleanedLines.length = e.queryLines.length := by
  unfold sealedEvs
  split
  · intro t e he
    simp at he
    rw [he.2, sealElem_fst_cleaned, sealElem_fst_query]
    exact h
  · intro t e he
    simp at he

theorem gstep_lenEq (P : GParams) (st : GSt) (raw : Line)
    (h : st.elem.cleanedLines.length = st.elem.queryLines.length) :
    (gstep P st raw).1.elem.cleanedLines.length = (gstep P st raw).1.elem.queryLines.length ∧
    (∀ t e, GEv.item t e ∈ (gstep P st raw).2 →
      e.cleanedLines.length = e.queryLines.length) := by
  unfold gstep gbottom
  dsimp only
  split
  · exact ⟨h, by intro t e he; simp at he⟩
  · split
    · -- environment marker
      split
      · refine ⟨sealedEvs_snd_lenEq _ h, ?_⟩
        intro t e he
        rw [List.mem_append] at he
        rcases he with he | he
        · exact sealedEvs_mem_lenEq _ h t e he
        · simp at he
      · split
        · rw [appendElem_cleaned, appendElem_query]
          exact ⟨by simp [h], by intro t e he; simp at he⟩
        · exact ⟨h, by intro t e he; simp at he⟩
    · -- held-over line
      split
      · exact ⟨h, by intro t e he; simp at he⟩
      · split
        · rw [openElem_cleaned, openElem_query]
          refine ⟨by simp [sealedEvs_snd_lenEq _ h], ?_⟩
          exact sealedEvs_mem_lenEq _ h
        · split
          · rw [appendElem_cleaned, appendElem_query]
            refine ⟨by simp [sealedEvs_snd_lenEq _ h], ?_⟩
            intro t e he
            rw [List.mem_append] at he
            rcases he with he | he
            · exact sealedEvs_mem_lenEq _ h t e he
            · simp at he
          · refine ⟨sealedEvs_snd_lenEq _ h, ?_⟩
            intro t e he
            rw [List.mem_append] at he
            rcases he with he | he
            · exact sealedEvs_mem_lenEq _ h t e he
            · simp at he
    · -- recognized item
      split
      · rw [openElem_cleaned, openElem_query]
        refine ⟨by simp [sealedEvs_snd_lenEq _ h], ?_⟩
        exact sealedEvs_mem_lenEq _ h
      · split
        · rw [appendElem_cleaned, appendElem_query]
          refine ⟨by simp [sealedEvs_snd_lenEq _ h], ?_⟩
          intro t e he
          rw [List.mem_append] at he
          rcases he with he | he
          · exact sealedEvs_mem_lenEq _ h t e he
          · simp at he
        · refine ⟨sealedEvs_snd_lenEq _ h, ?_⟩
          intro t e he
          rw [List.mem_append] at he
          rcases he with he | he
          · exact sealedEvs_mem_lenEq _ h t e he
          · simp at he
    · -- no recognition
      split
      · rw [appendElem_cleaned, appendElem_query]
        exact ⟨by simp [h], by intro t e he; simp at he⟩
      · exact ⟨h, by intro t e he; simp at he⟩

theorem gatherGo_lenEq (P : GParams) : ∀ (rest : List Line) (st : GSt),
    st.elem.cleanedLines.length = st.elem.queryLines.length →
    ∀ t e, GEv.item t e ∈ gatherGo P st rest →
      e.cleanedLines.length = e.queryLines.length := by
  intro rest
  induction rest with
  | nil =>
    intro st h t e hmem
    unfold gatherGo gfinal at hmem
    split at hmem
    · simp at hmem
      rcases hmem with ⟨h1, h2⟩
      rw [h2]
      exact h
    · simp at hmem
  | cons l rs ih =>
    intro st h t e hmem
    unfold gatherGo at hmem
    rw [List.mem_append] at hmem
    rcases hmem with hmem | hmem
    · exact (gstep_lenEq P st l h).2 t e hmem
    · exact ih (gstep P st l).1 (gstep_lenEq P st l h).1 t e hmem

/-- C4, amended: for every emitted record, content_lines and query_lines
have the same length as each other (they are appended to in lockstep);
original_lines additionally receives the comment-only lines and the
reattached boundary lines, so its length may differ, as the counterexample
shows. -/
theorem C4_amended (P : GParams) (lines : List Line) :
    ∀ e ∈ recordsOf (gatherRecords P lines),
      e.cleanedLines.length = e.queryLines.length := by
  intro e he
  rw [recordsOf_mem] at he
  obtain ⟨t, ht⟩ := he
  exact gatherGo_lenEq P lines (gatherInit P) rfl t e ht

/-- Witness for the amended C4 on a record with an interior comment line. -/
theorem C4_amended_witness :
    ((recordsOf (gatherRecords (plainParams false)
        [L "\\bibitem\x7ba\x7d X\n", L "% c\n", L "more text\n", L "\\bibitem\x7bb\x7d Y\n"])).headD
        default).cleanedLines.length
      = ((recordsOf (gatherRecords (plainParams false)
        [L "\\bibitem\x7ba\x7d X\n", L "% c\n", L "more text\n", L "\\bibitem\x7bb\x7d Y\n"])).headD
        default).queryLines.length :=
  C4_amended (plainParams false)
    [L "\\bibitem\x7ba\x7d X\n", L "% c\n", L "more text\n", L "\\bibitem\x7bb\x7d Y\n"]
    _ (by decide)

/- ----------------------------------------------------------------------
   C1
   ---------------------------------------------------------------------- -/

/-- C1, counterexample: the claim says the concatenated original_lines of
every emitted record reproduce a span of the source byte for byte; but when
the opening bibitem line is held over (continuation) and carries a trailing
comment, the held text is the comment-stripped form, so the record original
lines differ from every contiguous span of the input. -/
theorem C1_counterexample :
    ¬ (∀ (P : GParams) (lines : List Line), ∀ e ∈ recordsOf (gatherRecords P lines),
        ∃ i n, concatL e.origLines = concatL ((lines.drop i).take n)) := by
  intro hcl
  obtain ⟨i, n, heq⟩ := hcl (plainParams false) [L "\\bibitem % c\n", L "\x7bk\x7d t\n"]
    ((recordsOf (gatherRecords (plainParams false)
      [L "\\bibitem % c\n", L "\x7bk\x7d t\n"])).headD default)
    (by decide)
  have hL : concatL ((recordsOf (gatherRecords (plainParams false)
      [L "\\bibitem % c\n", L "\x7bk\x7d t\n"])).headD default).origLines
      = L "\\bibitem \n\x7bk\x7d t\n" := by decide
  rw [hL] at heq
  have hseg : ∀ i n : Nat,
      concatL ((([L "\\bibitem % c\n", L "\x7bk\x7d t\n"] : List Line).drop i).take n)
        ≠ L "\\bibitem \n\x7bk\x7d t\n" := by
    intro i n
    rcases i with _ | _ | i <;> rcases n with _ | _ | n <;>
      simp only [List.drop_succ_cons, List.drop_nil, List.drop_zero,
        List.take_succ_cons, List.take_nil, List.take_zero, concatL] <;> decide
  exact hseg i n heq.symm

theorem sealedEvs_concat (x : RefElementM) :
    concatL ((sealedEvs x).1.map evText) ++ concatL (sealedEvs x).2.origLines
      = concatL x.origLines := by
  unfold sealedEvs
  split
  · simp only [List.map_cons, List.map_nil, evText, concatL, List.flatten_cons,
      List.flatten_nil, List.append_nil]
    rw [← List.flatten_append, sealElem_orig_append x]
  · simp [concatL]

theorem sealedEvs_mem_orig (x : RefElementM) :
    ∀ t e, GEv.item t e ∈ (sealedEvs x).1 → ∃ post, e.origLines ++ post = x.origLines := by
  unfold sealedEvs
  split
  · intro t e he
    simp at he
    exact ⟨(sealElem x).2.origLines, he.2 ▸ sealElem_orig_append x⟩
  · intro t e he
    simp at he

theorem sealedEvs_snd_suffix (x : RefElementM) :
    ∃ pre, pre ++ (sealedEvs x).2.origLines = x.origLines := by
  unfold sealedEvs
  split
  · exact ⟨(sealElem x).1.origLines, sealElem_orig_append x⟩
  · exact ⟨[], rfl⟩

theorem gfinal_concat (st : GSt) (hEmpty : st.elem.reftype = none → st.elem.origLines = []) :
    concatL ((gfinal st).map evText) = concatL st.elem.origLines := by
  unfold gfinal
  split
  · rename_i t heq
    have h := sortCommentsOut_append st.elem.origLines st.elem.commentLines
    simp only [List.map_cons, List.map_nil, evText, concatL, List.flatten_cons,
      List.flatten_nil, List.append_nil]
    rw [← List.flatten_append, h]
  · rename_i heq
    simp [evText, concatL, hEmpty heq]

theorem gfinal_mem (st : GSt) :
    ∀ t e, GEv.item t e ∈ gfinal st → ∃ post, e.origLines ++ post = st.elem.origLines := by
  unfold gfinal
  split
  · intro t e he
    simp at he
    refine ⟨(sortCommentsOut st.elem.origLines st.elem.commentLines).2.2.1, ?_⟩
    rw [he.2]
    exact sortCommentsOut_append _ _
  · intro t e he
    simp at he

/-- One gather step in whole-document mode with no continuation hold on the
line: the machine flags are preserved, the emitted text plus the pending
element text extend by exactly the raw line, every emitted record is a
prefix block of the old pending element, and the new pending element is a
suffix block of the old element extended by the line. -/
theorem gstep_roundtrip (P : GParams) (hP : P.requireEnv = false) (st : GSt) (l : Line)
    (hml : st.multiline = []) (hsearch : st.search = true) (hgather : st.gather = true)
    (hnhl : holdTriggers l = false)
    (hEmpty : st.elem.reftype = none → st.elem.origLines = []) :
    (gstep P st l).1.multiline = [] ∧ (gstep P st l).1.search = true ∧
    (gstep P st l).1.gather = true ∧
    ((gstep P st l).1.elem.reftype = none → (gstep P st l).1.elem.origLines = []) ∧
    (concatL ((gstep P st l).2.map evText) ++ concatL (gstep P st l).1.elem.origLines
      = concatL st.elem.origLines ++ l) ∧
    (∀ t e, GEv.item t e ∈ (gstep P st l).2 →
      ∃ post, e.origLines ++ post = st.elem.origLines) ∧
    (∃ pre, pre ++ (gstep P st l).1.elem.origLines = st.elem.origLines ++ [l]) := by
  unfold holdTriggers at hnhl
  unfold gstep gbottom
  rw [hml, hsearch, hgather, hP]
  dsimp only [List.nil_append]
  rw [if_pos rfl]
  split
  · -- comment-only line captured into the open element
    rename_i hcond
    rw [Bool.and_eq_true, decide_eq_true_eq, decide_eq_true_eq] at hcond
    refine ⟨rfl, rfl, rfl, ?_, ?_, ?_, ?_⟩
    · intro hrt
      exact absurd (hEmpty hrt) hcond.2
    · simp [concatL, hEmpty, hcond]
    · intro t e he
      simp at he
    · exact ⟨[], rfl⟩
  · split
    · -- environment marker line: whole-document mode falls through to the bottom branch
      rename_i es heq
      rw [if_neg (by decide)]
      split
      · rename_i hopen
        refine ⟨rfl, rfl, rfl, ?_, ?_, ?_, ?_⟩
        · intro hrt
          have hrt2 : (appendElem P st.elem l (removeTexComments l)).reftype = none := hrt
          rw [appendElem_reftype] at hrt2
          rw [Bool.and_eq_true, hrt2] at hopen
          simp at hopen
        · rw [appendElem_orig]
          simp only [List.map_nil, concatL, List.flatten_nil, List.nil_append,
            List.flatten_append, List.flatten_cons, List.append_nil]
        · intro t e he
          simp at he
        · exact ⟨[], by rw [appendElem_orig, List.nil_append]⟩
      · rename_i hclosed
        rw [Bool.true_and] at hclosed
        have hrt : st.elem.reftype = none := by
          rcases h : st.elem.reftype with _ | t
          · rfl
          · rw [h] at hclosed; simp at hclosed
        refine ⟨hml, hsearch, hgather, fun h => hEmpty hrt, ?_, ?_, ?_⟩
        · simp [evText, concatL, hEmpty hrt]
        · intro t e he
          simp at he
        · exact ⟨[l], by simp [hEmpty hrt]⟩
    · -- continuation hold: excluded by the hypothesis on the line
      rename_i l2 heq
      rw [heq] at hnhl
      simp at hnhl
    · -- recognized reference item: seal and open
      rename_i t lbl ck txt heq
      rw [if_pos rfl]
      refine ⟨rfl, rfl, rfl, ?_, ?_, ?_, ?_⟩
      · intro hrt
        rw [openElem_reftype] at hrt
        simp at hrt
      · rw [openElem_orig]
        rw [show concatL ((sealedEvs st.elem).2.origLines ++ [l])
            = concatL (sealedEvs st.elem).2.origLines ++ l from by simp [concatL]]
        rw [← List.append_assoc]
        rw [sealedEvs_concat]
      · exact sealedEvs_mem_orig st.elem
      · obtain ⟨pre, hpre⟩ := sealedEvs_snd_suffix st.elem
        refine ⟨pre, ?_⟩
        rw [openElem_orig, ← List.append_assoc, hpre]
    · -- no recognition: append to the open record or pass the line through
      split
      · rename_i hopen
        refine ⟨rfl, rfl, rfl, ?_, ?_, ?_, ?_⟩
        · intro hrt
          have hrt2 : (appendElem P st.elem l (removeTexComments l)).reftype = none := hrt
          rw [appendElem_reftype] at hrt2
          rw [Bool.and_eq_true, hrt2] at hopen
          simp at hopen
        · rw [appendElem_orig]
          simp only [List.map_nil, concatL, List.flatten_nil, List.nil_append,
            List.flatten_append, List.flatten_cons, List.append_nil]
        · intro t e he
          simp at he
        · exact ⟨[], by rw [appendElem_orig, List.nil_append]⟩
      · rename_i hclosed
        rw [Bool.true_and] at hclosed
        have hrt : st.elem.reftype = none := by
          rcases h : st.elem.reftype with _ | t
          · rfl
          · rw [h] at hclosed; simp at hclosed
        refine ⟨hml, hsearch, hgather, fun h => hEmpty hrt, ?_, ?_, ?_⟩
        · simp [evText, concatL, hEmpty hrt]
        · intro t e he
          simp at he
        · exact ⟨[l], by simp [hEmpty hrt]⟩

/-- The round-trip invariant of the gather loop in whole-document mode with
no continuation holds: the emitted text reproduces the pending element
followed by the remaining input, and every emitted record is a contiguous
line block of that text. -/
theorem gatherGo_roundtrip (P : GParams) (hP : P.requireEnv = false) :
    ∀ (rest : List Line) (st : GSt),
    st.multiline = [] → st.search = true → st.gather = true →
    (∀ l ∈ rest, holdTriggers l = false) →
    (st.elem.reftype = none → st.elem.origLines = []) →
    concatL ((gatherGo P st rest).map evText)
      = concatL st.elem.origLines ++ concatL rest ∧
    ∀ t e, GEv.item t e ∈ gatherGo P st rest → ∃ pre post,
      pre ++ e.origLines ++ post = st.elem.origLines ++ rest := by
  intro rest
  induction rest with
  | nil =>
    intro st hml hsearch hgather hnh hEmpty
    unfold gatherGo
    constructor
    · rw [gfinal_concat st hEmpty]
      simp [concatL]
    · intro t e he
      obtain ⟨post, hpost⟩ := gfinal_mem st t e he
      exact ⟨[], post, by simpa using hpost⟩
  | cons l rs ih =>
    intro st hml hsearch hgather hnh hEmpty
    have hnhl : holdTriggers l = false := hnh l (List.mem_cons_self l rs)
    have hnhrs : ∀ x ∈ rs, holdTriggers x = false := fun x hx => hnh x (List.mem_cons_of_mem l hx)
    obtain ⟨g1, g2, g3, g4, g5, g6, g7⟩ := gstep_roundtrip P hP st l hml hsearch hgather hnhl hEmpty
    obtain ⟨ihs, ihm⟩ := ih (gstep P st l).1 g1 g2 g3 hnhrs g4
    have hgo : gatherGo P st (l :: rs) = (gstep P st l).2 ++ gatherGo P (gstep P st l).1 rs := rfl
    constructor
    · rw [hgo, List.map_append]
      unfold concatL at ihs g5 ⊢
      rw [List.flatten_append, ihs, ← List.append_assoc, g5, List.flatten_cons,
        List.append_assoc]
    · intro t e he
      rw [hgo, List.mem_append] at he
      rcases he with he | he
      · obtain ⟨post, hpost⟩ := g6 t e he
        refine ⟨[], post ++ (l :: rs), ?_⟩
        rw [List.nil_append, ← List.append_assoc, hpost]
      · obtain ⟨pre, post, hpp⟩ := ihm t e he
        obtain ⟨pre0, hpre0⟩ := g7
        refine ⟨pre0 ++ pre, post, ?_⟩
        have h1 : (pre0 ++ pre) ++ e.origLines ++ post
            = pre0 ++ (pre ++ e.origLines ++ post) := by
          simp [List.append_assoc]
        rw [h1, hpp, ← List.append_assoc, hpre0]
        simp

/-- C1, amended: in whole-document mode, on inputs none of whose lines
triggers the bibitem continuation hold, the gathered event stream
reproduces the input byte for byte and the concatenated original_lines of
every emitted record reproduce a contiguous span of the source (comment
lines included).  With continuation holds, comment stripping can alter the
held bytes (the counterexample), and in environment mode the reattached
boundary comment lines can make a record span non-contiguous. -/
theorem C1_amended (P : GParams) (lines : List Line)
    (hP : P.requireEnv = false)
    (hnh : ∀ l ∈ lines, holdTriggers l = false) :
    concatL ((gatherRecords P lines).map evText) = concatL lines ∧
    ∀ e ∈ recordsOf (gatherRecords P lines), ∃ i n,
      concatL e.origLines = concatL ((lines.drop i).take n) := by
  obtain ⟨hs, hm⟩ := gatherGo_roundtrip P hP lines (gatherInit P) rfl rfl
    (by rw [gatherInit, hP]; rfl) hnh (fun _ => rfl)
  constructor
  · simpa [concatL] using hs
  · intro e he
    rw [recordsOf_mem] at he
    obtain ⟨t, ht⟩ := he
    obtain ⟨pre, post, hpp⟩ := hm t e ht
    refine ⟨pre.length, e.origLines.length, ?_⟩
    have hdrop : lines.drop pre.length = e.origLines ++ post := by
      have : lines = pre ++ (e.origLines ++ post) := by
        rw [← List.append_assoc, hpp]
        rfl
      rw [this, List.drop_left]
    rw [hdrop, List.take_left]

/-- Witness for the amended C1 on a three-record document with an interior
comment-only line. -/
theorem C1_amended_witness :
    concatL ((gatherRecords (plainParams false)
        [L "pre\n", L "\\bibitem\x7ba\x7d A\n", L "% note\n", L "tail\n",
         L "\\bibitem\x7bb\x7d B\n"]).map evText)
      = concatL [L "pre\n", L "\\bibitem\x7ba\x7d A\n", L "% note\n", L "tail\n",
         L "\\bibitem\x7bb\x7d B\n"] :=
  (C1_amended (plainParams false)
    [L "pre\n", L "\\bibitem\x7ba\x7d A\n", L "% note\n", L "tail\n",
     L "\\bibitem\x7bb\x7d B\n"] rfl (by decide)).1

/- ----------------------------------------------------------------------
   Structural lemmas about the controller
   ---------------------------------------------------------------------- -/

theorem transferElem_elem_refid (P : CParams) (q : Option Int) (e : RefElementM) :
    (transferElem P q e).elem.refid = e.refid := by
  unfold transferElem
  dsimp only
  split <;> rfl

theorem transferElem_elem_origMrid (P : CParams) (q : Option Int) (e : RefElementM) :
    (transferElem P q e).elem.origMrid = e.origMrid := by
  unfold transferElem
  dsimp only
  split <;> rfl

theorem transferFold_fields (P : CParams) (q : Option Int) (acc : CState) (e : RefElementM) :
    (transferFold P q acc e).flushed
        = acc.flushed ++ [((transferElem P q e).elem, (transferElem P q e).outcome)] ∧
    (transferFold P q acc e).container = acc.container ∧
    (transferFold P q acc e).sentBatches = acc.sentBatches ∧
    (transferFold P q acc e).queryElems = acc.queryElems ∧
    (transferFold P q acc e).valid = acc.valid ∧
    (transferFold P q acc e).stats.TOTAL = acc.stats.TOTAL ∧
    (transferFold P q acc e).eofFlag = acc.eofFlag ∧
    (transferFold P q acc e).queryCount = acc.queryCount ∧
    (transferFold P q acc e).qerrno = acc.qerrno := by
  unfold transferFold
  dsimp only
  refine ⟨rfl, rfl, rfl, rfl, rfl, ?_, rfl, rfl, rfl⟩
  unfold bumpStats
  split <;> split <;> rfl

theorem foldl_transferFold_fields (P : CParams) (q : Option Int) :
    ∀ (es : List RefElementM) (acc : CState),
    (es.foldl (transferFold P q) acc).flushed
        = acc.flushed ++ es.map (fun e => ((transferElem P q e).elem, (transferElem P q e).outcome)) ∧
    (es.foldl (transferFold P q) acc).container = acc.container ∧
    (es.foldl (transferFold P q) acc).sentBatches = acc.sentBatches ∧
    (es.foldl (transferFold P q) acc).queryElems = acc.queryElems ∧
    (es.foldl (transferFold P q) acc).valid = acc.valid ∧
    (es.foldl (transferFold P q) acc).stats.TOTAL = acc.stats.TOTAL ∧
    (es.foldl (transferFold P q) acc).eofFlag = acc.eofFlag ∧
    (es.foldl (transferFold P q) acc).queryCount = acc.queryCount ∧
    (es.foldl (transferFold P q) acc).qerrno = acc.qerrno := by
  intro es
  induction es with
  | nil => intro acc; simp
  | cons e rest ih =>
    intro acc
    rw [List.foldl_cons]
    obtain ⟨i1, i2, i3, i4, i5, i6, i7, i8, i9⟩ := ih (transferFold P q acc e)
    obtain ⟨f1, f2, f3, f4, f5, f6, f7, f8, f9⟩ := transferFold_fields P q acc e
    refine ⟨?_, ?_, ?_, ?_, ?_, ?_, ?_, ?_, ?_⟩
    · rw [i1, f1]
      simp
    · rw [i2, f2]
    · rw [i3, f3]
    · rw [i4, f4]
    · rw [i5, f5]
    · rw [i6, f6]
    · rw [i7, f7]
    · rw [i8, f8]
    · rw [i9, f9]

theorem transferToFile_fields (P : CParams) (st : CState) :
    (transferToFile P st).flushed
        = st.flushed ++ st.container.map (fun e =>
            ((transferElem P st.qerrno e).elem, (transferElem P st.qerrno e).outcome)) ∧
    (transferToFile P st).container = [] ∧
    (transferToFile P st).sentBatches = st.sentBatches ∧
    (transferToFile P st).queryElems = st.queryElems ∧
    (transferToFile P st).stats.TOTAL = st.stats.TOTAL ∧
    (transferToFile P st).qerrno = none := by
  unfold transferToFile
  dsimp only
  obtain ⟨f1, f2, f3, f4, f5, f6, f7, f8, f9⟩ := foldl_transferFold_fields P st.qerrno st.container st
  split <;> exact ⟨f1, rfl, f3, f4, f6, rfl⟩

theorem queryFinish_fields (q : Option Int) (er : Int) (st : CState) :
    (queryFinish q er st).container = st.container ∧
    (queryFinish q er st).flushed = st.flushed ∧
    (queryFinish q er st).stats = st.stats ∧
    (queryFinish q er st).valid = st.valid ∧
    (queryFinish q er st).queryElems = [] ∧
    (queryFinish q er st).sentBatches = st.sentBatches ++ [st.queryElems] ∧
    (queryFinish q er st).eofFlag = st.eofFlag := by
  unfold queryFinish
  dsimp only
  split <;> exact ⟨rfl, rfl, rfl, rfl, rfl, rfl, rfl⟩

theorem updateFirstByRefid_refid_map (r : Nat) (f : RefElementM → RefElementM)
    (hf : ∀ e, (f e).refid = e.refid) :
    ∀ (elems : List RefElementM),
    (updateFirstByRefid elems r f).map (fun e => e.refid) = elems.map (fun e => e.refid) := by
  intro elems
  induction elems with
  | nil => rfl
  | cons e rest ih =>
    unfold updateFirstByRefid
    split
    · simp [hf]
    · simp only [List.map_cons]
      rw [ih]

theorem analyzeXml_refid_map (ot : Option OType) (elems : List RefElementM) (frag : RFrag)
    (elems2 : List RefElementM) (h : analyzeXml ot elems frag = .ok elems2) :
    elems2.map (fun e => e.refid) = elems.map (fun e => e.refid) := by
  unfold analyzeXml at h
  split at h
  · exact absurd h (by simp)
  · split at h
    · split at h
      · exact absurd h (by simp)
      · simp only [Except.ok.injEq] at h
        rw [← h]
        apply updateFirstByRefid_refid_map
        intro e
        dsimp only
        split <;> split <;> rfl
    · simp only [Except.ok.injEq] at h
      rw [← h]
      apply updateFirstByRefid_refid_map
      intro e
      rfl

theorem foldlM_analyze_refid_map (ot : Option OType) :
    ∀ (frags : List RFrag) (elems elems2 : List RefElementM),
    frags.foldlM (fun es f => analyzeXml ot es f) elems = .ok elems2 →
    elems2.map (fun e => e.refid) = elems.map (fun e => e.refid) := by
  intro frags
  induction frags with
  | nil =>
    intro elems elems2 h
    have h2 : Except.ok (ε := CrashE) elems = Except.ok elems2 := h
    cases h2
    rfl
  | cons f rest ih =>
    intro elems elems2 h
    rw [List.foldlM_cons] at h
    rcases ha : analyzeXml ot elems f with c | elems1
    · rw [ha] at h
      exact Except.noConfusion h
    · rw [ha] at h
      exact (ih elems1 elems2 h).trans (analyzeXml_refid_map ot elems f elems1 ha)

theorem queryRun_fields (P : CParams) (out : QOutcome) (st st2 : CState)
    (h : queryRun P out st = .ok st2) :
    st2.container.map (fun e => e.refid) = st.container.map (fun e => e.refid) ∧
    st2.flushed = st.flushed ∧
    st2.stats = st.stats ∧
    st2.valid = st.valid ∧
    st2.queryElems = [] ∧
    st2.sentBatches = st.sentBatches ++ [st.queryElems] ∧
    st2.eofFlag = st.eofFlag := by
  unfold queryRun at h
  dsimp only at h
  split at h
  · rename_i br heq
    split at h
    · rename_i elems hfold
      simp only [Except.ok.injEq] at h
      subst h
      refine ⟨?_, (queryFinish_fields _ _ _).2.1, (queryFinish_fields _ _ _).2.2.1,
        (queryFinish_fields _ _ _).2.2.2.1, (queryFinish_fields _ _ _).2.2.2.2.1,
        (queryFinish_fields _ _ _).2.2.2.2.2.1, (queryFinish_fields _ _ _).2.2.2.2.2.2⟩
      rw [(queryFinish_fields _ _ _).1]
      exact foldlM_analyze_refid_map P.outputtype br.2 st.container elems hfold
    · exact Except.noConfusion h
  · simp only [Except.ok.injEq] at h
    subst h
    refine ⟨?_, (queryFinish_fields _ _ _).2.1, (queryFinish_fields _ _ _).2.2.1,
      (queryFinish_fields _ _ _).2.2.2.1, (queryFinish_fields _ _ _).2.2.2.2.1,
      (queryFinish_fields _ _ _).2.2.2.2.2.1, (queryFinish_fields _ _ _).2.2.2.2.2.2⟩
    rw [(queryFinish_fields _ _ _).1]

theorem acceptElem_refid (st : CState) (t : RTy) (e0 : RefElementM) :
    (acceptElem st t e0).refid = some (st.stats.TOTAL + 1) := by
  unfold acceptElem
  dsimp only
  split <;> split <;> rfl

theorem acceptElem_origMrid (st : CState) (t : RTy) (e0 : RefElementM) :
    (acceptElem st t e0).origMrid = e0.origMrid := by
  unfold acceptElem
  dsimp only
  split <;> split <;> rfl

theorem prepareQueryStr_cases (P : CParams) (n : Nat) (q : Line) :
    ((prepareQueryStr P n q).1 = 0 ∧ (prepareQueryStr P n q).2.toList.length = 1) ∨
    ((prepareQueryStr P n q).1 ≠ 0 ∧ (prepareQueryStr P n q).2 = none) := by
  unfold prepareQueryStr
  dsimp only
  split
  · exact Or.inl ⟨rfl, rfl⟩
  · rename_i hc
    exact Or.inr ⟨hc, rfl⟩

theorem acceptRecord_fields (P : CParams) (st : CState) (t : RTy) (e0 : RefElementM) :
    (acceptRecord P st t e0).stats.TOTAL = st.stats.TOTAL + 1 ∧
    (∃ e1, (acceptRecord P st t e0).container = st.container ++ [e1]
        ∧ e1.refid = some (st.stats.TOTAL + 1)) ∧
    (acceptRecord P st t e0).queryElems.length + st.valid
        = st.queryElems.length + (acceptRecord P st t e0).valid ∧
    (acceptRecord P st t e0).valid ≤ st.valid + 1 ∧
    st.valid ≤ (acceptRecord P st t e0).valid ∧
    (acceptRecord P st t e0).sentBatches = st.sentBatches ∧
    (acceptRecord P st t e0).flushed = st.flushed ∧
    (acceptRecord P st t e0).eofFlag = st.eofFlag ∧
    (acceptRecord P st t e0).queryCount = st.queryCount ∧
    (acceptRecord P st t e0).qerrno = st.qerrno := by
  unfold acceptRecord
  dsimp only
  split
  · rcases prepareQueryStr_cases P (st.stats.TOTAL + 1) (qsOf (acceptElem st t e0)) with
      ⟨h1, h2⟩ | ⟨h1, h2⟩
    · refine ⟨rfl, ⟨_, rfl, ?_⟩, ?_, ?_, ?_, rfl, rfl, rfl, rfl, rfl⟩
      · exact acceptElem_refid st t e0
      · dsimp only
        rw [if_pos h1]
        simp [h2]
        omega
      · dsimp only
        rw [if_pos h1]
      · dsimp only
        rw [if_pos h1]
        omega
    · refine ⟨rfl, ⟨_, rfl, ?_⟩, ?_, ?_, ?_, rfl, rfl, rfl, rfl, rfl⟩
      · exact acceptElem_refid st t e0
      · dsimp only
        rw [if_neg h1]
        simp [h2]
      · dsimp only
        rw [if_neg h1]
        omega
      · dsimp only
        rw [if_neg h1]
  · refine ⟨rfl, ⟨_, rfl, acceptElem_refid st t e0⟩, ?_, ?_, ?_, rfl, rfl, rfl, rfl, rfl⟩ <;>
      · dsimp only
        try omega

/- ----------------------------------------------------------------------
   C9
   ---------------------------------------------------------------------- -/

theorem getElemByRefid_none : ∀ (elems : List RefElementM) (r : Nat),
    (∀ e ∈ elems, e.refid ≠ some r) → getElemByRefid elems r = none := by
  intro elems
  induction elems with
  | nil => intro r h; rfl
  | cons e rest ih =>
    intro r h
    unfold getElemByRefid
    rw [List.filter_cons, if_neg (by simp [h e (List.mem_cons_self e rest)])]
    exact ih r (fun x hx => h x (List.mem_cons_of_mem e hx))

/-- C9: the correlation id of a record is assigned once on acceptance into
the batch and never modified: query reconciliation preserves the refid of
every container element, as does the finalization step; and a response
fragment whose id matches no record in the open container makes the
reconciliation raise (an attribute error on the absent element) instead of
attaching the result to any record. -/
theorem C9_correlation_id :
    (∀ (P : CParams) (st : CState) (t : RTy) (e0 : RefElementM),
      ∃ e1, (acceptRecord P st t e0).container = st.container ++ [e1]
        ∧ e1.refid = some (st.stats.TOTAL + 1)) ∧
    (∀ (P : CParams) (out : QOutcome) (st st2 : CState), queryRun P out st = .ok st2 →
      st2.container.map (fun e => e.refid) = st.container.map (fun e => e.refid)) ∧
    (∀ (P : CParams) (q : Option Int) (e : RefElementM),
      (transferElem P q e).elem.refid = e.refid) ∧
    (∀ (ot : Option OType) (elems : List RefElementM) (frag : RFrag),
      (∀ e ∈ elems, e.refid ≠ some frag.refid) →
      analyzeXml ot elems frag = .error .correlationMiss) := by
  refine ⟨?_, ?_, ?_, ?_⟩
  · intro P st t e0
    exact (acceptRecord_fields P st t e0).2.1
  · intro P out st st2 h
    exact (queryRun_fields P out st st2 h).1
  · intro P q e
    exact transferElem_elem_refid P q e
  · intro ot elems frag h
    unfold analyzeXml
    rw [getElemByRefid_none elems frag.refid h]

/-- Witness for C9 at concrete values: the acceptance of a record into an
empty controller state assigns correlation id one, and a response fragment
with the unknown id five makes the reconciliation fail loudly. -/
theorem C9_correlation_id_witness :
    (∃ e1, (acceptRecord ⟨1, false, false, 0, none, true, fun _ => 0, fun o _ _ _ => o⟩
        {} RTy.bibitem {}).container = ({} : CState).container ++ [e1]
        ∧ e1.refid = some 1) ∧
    analyzeXml none [] ⟨5, true, none, none⟩ = .error .correlationMiss := by
  constructor
  · exact C9_correlation_id.1 ⟨1, false, false, 0, none, true, fun _ => 0, fun o _ _ _ => o⟩
      {} RTy.bibitem {}
  · exact C9_correlation_id.2.2.2 none [] ⟨5, true, none, none⟩ (by simp)

/- ----------------------------------------------------------------------
   C6
   ---------------------------------------------------------------------- -/

/-- C6: a record whose source already carries an MR id is never submitted:
its acceptance adds no query fragment and does not advance the batch
counter; at finalization a record with the flag set and no looked-up id is
classified skipped with the message naming the already present MR id, and
that message differs from the one of a record skipped because queries are
disabled, for every citekey. -/
theorem C6_skip_has_identifier :
    (∀ (P : CParams) (st : CState) (t : RTy) (e0 : RefElementM), e0.origMrid = true →
      (acceptRecord P st t e0).queryElems = st.queryElems ∧
      (acceptRecord P st t e0).valid = st.valid) ∧
    (∀ (P : CParams) (q : Option Int) (e : RefElementM),
      e.origMrid = true → e.mrid = none → q ≠ some (-1) → e.errno ≠ some (-1) →
      (transferElem P q e).outcome = .skipHasMr ∧
      (transferElem P q e).msg = skipHasMrMsg e.citekey) ∧
    (∀ ck : Option CKey, skipHasMrMsg ck ≠ skipDisabledMsg ck) := by
  refine ⟨?_, ?_, ?_⟩
  · intro P st t e0 hmr
    unfold acceptRecord
    dsimp only
    rw [if_neg (by rw [acceptElem_origMrid, hmr]; simp)]
    exact ⟨rfl, rfl⟩
  · intro P q e hmr hmrid hq he
    unfold transferElem
    dsimp only
    rw [show (if q ≠ some 0 then { e with errno := q } else e).mrid = none from by
      split <;> exact hmrid]
    dsimp only
    rw [if_neg (show ¬(if q ≠ some 0 then { e with errno := q } else e).errno = some (-1) from by
      split
      · intro hcon; exact hq hcon
      · intro hcon; exact he hcon)]
    rw [if_pos (show (if q ≠ some 0 then { e with errno := q } else e).origMrid = true from by
      split <;> exact hmr)]
    refine ⟨rfl, ?_⟩
    rw [show (if q ≠ some 0 then { e with errno := q } else e).citekey = e.citekey from by
      split <;> rfl]
  · intro ck h
    unfold skipHasMrMsg skipDisabledMsg at h
    have h2 := List.append_cancel_left h
    exact absurd h2 (by decide)

/-- Witness for C6 at concrete values. -/
theorem C6_skip_has_identifier_witness :
    (acceptRecord ⟨1, false, false, 0, none, true, fun _ => 0, fun o _ _ _ => o⟩
        {} RTy.bibitem { origMrid := true }).queryElems = ({} : CState).queryElems ∧
    (transferElem ⟨1, false, false, 0, none, true, fun _ => 0, fun o _ _ _ => o⟩
        none { origMrid := true }).outcome = .skipHasMr ∧
    skipHasMrMsg (some (.str (L "k"))) ≠ skipDisabledMsg (some (.str (L "k"))) := by
  refine ⟨?_, ?_, ?_⟩
  · exact (C6_skip_has_identifier.1 ⟨1, false, false, 0, none, true, fun _ => 0, fun o _ _ _ => o⟩
      {} RTy.bibitem { origMrid := true } rfl).1
  · exact (C6_skip_has_identifier.2.1 ⟨1, false, false, 0, none, true, fun _ => 0, fun o _ _ _ => o⟩
      none { origMrid := true } rfl rfl (by simp) (by simp)).1
  · exact C6_skip_has_identifier.2.2 (some (.str (L "k")))

/- ----------------------------------------------------------------------
   C7
   ---------------------------------------------------------------------- -/

theorem failCodeOf_ne200 (out : QOutcome) : failCodeOf out ≠ 200 := by
  cases out with
  | exnFail => decide
  | resp c x b f =>
    show (if c ≠ 200 then c else 412) ≠ 200
    split
    · assumption
    · decide

theorem querySend_fail (out : QOutcome) (h : transportFails out = true) :
    querySend false out = (some (failCodeOf out), none) := by
  cases out with
  | exnFail => rfl
  | resp c x b f =>
    have h2 : ¬c = 200 ∨ x = false := by simpa [transportFails] using h
    unfold querySend failCodeOf
    rw [if_neg (by decide)]
    dsimp only
    rw [if_neg (by rcases h2 with h2 | h2 <;> simp [h2])]
    split <;> rfl

/-- On a transport-level failure, query records the failing code as the
batch error, touches no record, and clears the outgoing fragments. -/
theorem queryRun_transport (P : CParams) (out : QOutcome) (st : CState)
    (hdq : P.disableQueries = false) (hfail : transportFails out = true) :
    queryRun P out st = .ok (queryFinish (some (failCodeOf out)) (failCodeOf out) st) := by
  unfold queryRun
  rw [hdq, querySend_fail out hfail]
  dsimp only
  rw [ite_self (none : Option (Bool × List RFrag))]
  dsimp only
  rw [if_neg (by simp [failCodeOf_ne200 out])]
  rfl

theorem queryFinish_qerrno_some (q : Option Int) (er : Int) (st : CState) (hq : q ≠ none) :
    (queryFinish q er st).qerrno = some er := by
  unfold queryFinish
  dsimp only
  rw [if_pos (by simp [hq])]

theorem transferElem_queryError (P : CParams) (c : Int) (e : RefElementM)
    (hdq : P.disableQueries = false) (hc0 : c ≠ 0) (hcm1 : c ≠ -1)
    (hmr : e.mrid = none) (hom : e.origMrid = false) :
    (transferElem P (some c) e).outcome = .queryError := by
  unfold transferElem
  dsimp only
  rw [if_pos (by simp [hc0])]
  rw [hmr]
  dsimp only
  rw [if_neg (by simp [hcm1]), if_neg (by simp [hom]), if_neg (by simp [hdq])]

theorem map_const_replicate {α β : Type} (f : α → β) (c : β) :
    ∀ (es : List α), (∀ e ∈ es, f e = c) → es.map f = List.replicate es.length c := by
  intro es
  induction es with
  | nil => intro h; rfl
  | cons e rest ih =>
    intro h
    rw [List.map_cons, h e (List.mem_cons_self e rest),
      ih (fun x hx => h x (List.mem_cons_of_mem e hx))]
    rfl

theorem foldl_transferFold_stats_qerror (P : CParams) (q : Option Int) (hq0 : q ≠ some 0) :
    ∀ (es : List RefElementM) (acc : CState),
    (∀ e ∈ es, (transferElem P q e).outcome = .queryError) →
    (es.foldl (transferFold P q) acc).stats.ERROR = acc.stats.ERROR + es.length ∧
    (es.foldl (transferFold P q) acc).stats.SUCCESS = acc.stats.SUCCESS ∧
    (es.foldl (transferFold P q) acc).stats.NOT_FOUND = acc.stats.NOT_FOUND ∧
    (es.foldl (transferFold P q) acc).stats.SKIP = acc.stats.SKIP := by
  intro es
  induction es with
  | nil => intro acc h; exact ⟨rfl, rfl, rfl, rfl⟩
  | cons e rest ih =>
    intro acc h
    rw [List.foldl_cons]
    obtain ⟨i1, i2, i3, i4⟩ := ih (transferFold P q acc e)
      (fun x hx => h x (List.mem_cons_of_mem e hx))
    have hstep : (transferFold P q acc e).stats.ERROR = acc.stats.ERROR + 1 ∧
        (transferFold P q acc e).stats.SUCCESS = acc.stats.SUCCESS ∧
        (transferFold P q acc e).stats.NOT_FOUND = acc.stats.NOT_FOUND ∧
        (transferFold P q acc e).stats.SKIP = acc.stats.SKIP := by
      unfold transferFold
      dsimp only
      rw [h e (List.mem_cons_self e rest)]
      rw [if_neg (by simp [hq0])]
      exact ⟨rfl, rfl, rfl, rfl⟩
    rw [i1, i2, i3, i4, hstep.1, hstep.2.1, hstep.2.2.1, hstep.2.2.2]
    exact ⟨by simp [List.length_cons]; omega, rfl, rfl, rfl⟩

theorem transferToFile_stats (P : CParams) (st : CState) :
    (transferToFile P st).stats = (st.container.foldl (transferFold P st.qerrno) st).stats := by
  unfold transferToFile
  dsimp only
  split <;> rfl

/-- C7: a transport-level failure (request exception, non-success status or
a body without the XML heading) on a dispatched batch of N submitted
records yields, after the finalization pass, exactly N query-error
outcomes, and neither the found nor the not-found counters move. -/
theorem C7_transport_failure (P : CParams) (out : QOutcome) (st st2 : CState)
    (hdq : P.disableQueries = false)
    (hfail : transportFails out = true)
    (hc0 : failCodeOf out ≠ 0) (hcm1 : failCodeOf out ≠ -1)
    (helems : ∀ e ∈ st.container, e.mrid = none ∧ e.origMrid = false)
    (hq : queryRun P out st = .ok st2) :
    ((transferToFile P st2).flushed.map (fun p => p.2)
        = st.flushed.map (fun p => p.2)
          ++ List.replicate st.container.length Outcome.queryError) ∧
    (transferToFile P st2).stats.ERROR = st.stats.ERROR + st.container.length ∧
    (transferToFile P st2).stats.SUCCESS = st.stats.SUCCESS ∧
    (transferToFile P st2).stats.NOT_FOUND = st.stats.NOT_FOUND := by
  rw [queryRun_transport P out st hdq hfail] at hq
  have hst2 : st2 = queryFinish (some (failCodeOf out)) (failCodeOf out) st :=
    (Except.ok.inj hq).symm
  subst hst2
  obtain ⟨f1, f2, f3, f4, f5, f6, f7⟩ :=
    queryFinish_fields (some (failCodeOf out)) (failCodeOf out) st
  have hqe : (queryFinish (some (failCodeOf out)) (failCodeOf out) st).qerrno
      = some (failCodeOf out) := queryFinish_qerrno_some _ _ _ (by simp)
  have houtc : ∀ e ∈ (queryFinish (some (failCodeOf out)) (failCodeOf out) st).container,
      (transferElem P (queryFinish (some (failCodeOf out)) (failCodeOf out) st).qerrno e).outcome
        = .queryError := by
    intro e he
    rw [f1] at he
    rw [hqe]
    exact transferElem_queryError P (failCodeOf out) e hdq hc0 hcm1
      (helems e he).1 (helems e he).2
  constructor
  · rw [(transferToFile_fields P _).1, List.map_append, List.map_map, f2, f1]
    congr 1
    exact map_const_replicate _ _ _ (fun e he => houtc e (by rw [f1]; exact he))
  · have hstats := foldl_transferFold_stats_qerror P
      (queryFinish (some (failCodeOf out)) (failCodeOf out) st).qerrno
      (by rw [hqe]; simp [hc0])
      (queryFinish (some (failCodeOf out)) (failCodeOf out) st).container
      (queryFinish (some (failCodeOf out)) (failCodeOf out) st) houtc
    rw [transferToFile_stats]
    rw [hstats.1, hstats.2.1, hstats.2.2.1, f1, f3]
    exact ⟨rfl, rfl, rfl⟩

/-- Witness for C7: one submitted record, one failing request. -/
theorem C7_transport_failure_witness :
    queryRun ⟨1, false, false, 0, none, true, fun _ => 0, fun o _ _ _ => o⟩ QOutcome.exnFail
        { container := [{ refid := some 1, errno := some 0 }] }
      = .ok (queryFinish (some 412) 412 { container := [{ refid := some 1, errno := some 0 }] }) ∧
    (transferToFile ⟨1, false, false, 0, none, true, fun _ => 0, fun o _ _ _ => o⟩
        (queryFinish (some 412) 412
          { container := [{ refid := some 1, errno := some 0 }] })).stats.ERROR
      = ({ container := [{ refid := some 1, errno := some 0 }] } : CState).stats.ERROR + 1 := by
  constructor
  · exact queryRun_transport _ QOutcome.exnFail _ rfl rfl
  · have h := C7_transport_failure
      ⟨1, false, false, 0, none, true, fun _ => 0, fun o _ _ _ => o⟩ QOutcome.exnFail
      { container := [{ refid := some 1, errno := some 0 }] }
      (queryFinish (some 412) 412 { container := [{ refid := some 1, errno := some 0 }] })
      rfl rfl (by decide) (by decide) (by intro e he; simp at he; rw [he]; exact ⟨rfl, rfl⟩)
      (queryRun_transport _ QOutcome.exnFail _ rfl rfl)
    exact h.2.1

/- ----------------------------------------------------------------------
   C5
   ---------------------------------------------------------------------- -/

theorem map_refid_pairs (P : CParams) (q : Option Int) :
    ∀ (es : List RefElementM),
    (es.map (fun e => ((transferElem P q e).elem, (transferElem P q e).outcome))).map
        (fun p => p.1.refid) = es.map (fun e => e.refid) := by
  intro es
  induction es with
  | nil => rfl
  | cons e rest ih =>
    simp only [List.map_cons]
    rw [ih, transferElem_elem_refid]

theorem croute_pre (P : CParams) (st : CState) (ev : GEv) (hi : CInv P st) :
    (croute P st ev).queryElems.length = (croute P st ev).valid ∧
    (croute P st ev).valid ≤ P.limit ∧
    (∀ b ∈ (croute P st ev).sentBatches, b.length ≤ P.limit) ∧
    (croute P st ev).flushed.map (fun p => p.1.refid)
        ++ (croute P st ev).container.map (fun e => e.refid)
      = (List.range' 1 (croute P st ev).stats.TOTAL).map some := by
  unfold CInv at hi
  obtain ⟨h1, h2, h3, h4⟩ := hi
  cases ev with
  | eofMark tail => exact ⟨h1, Nat.le_of_lt h2, h3, h4⟩
  | env es l =>
    unfold croute
    dsimp only
    split <;> exact ⟨h1, Nat.le_of_lt h2, h3, h4⟩
  | passth tag l =>
    unfold croute
    dsimp only
    split <;> exact ⟨h1, Nat.le_of_lt h2, h3, h4⟩
  | item t e =>
    unfold croute
    dsimp only
    split
    · obtain ⟨a1, ⟨e1, a2c, a2r⟩, a3, a4, a5, a6, a7, a8, a9, a10⟩ :=
        acceptRecord_fields P st t e
      refine ⟨?_, ?_, ?_, ?_⟩
      · omega
      · omega
      · rw [a6]; exact h3
      · rw [a7, a2c, a1, List.range'_1_concat]
        simp only [List.map_append, List.map_cons, List.map_nil]
        rw [← List.append_assoc, h4, a2r, Nat.add_comm 1 st.stats.TOTAL]
    · exact ⟨h1, Nat.le_of_lt h2, h3, h4⟩

theorem cstep_inv (P : CParams) (oracle : Nat → QOutcome) (st : CState) (ev : GEv)
    (st2 : CState) (hl : 0 < P.limit) (hi : CInv P st)
    (h : cstep P oracle st ev = .ok st2) : CInv P st2 := by
  obtain ⟨p1, p2, p3, p4⟩ := croute_pre P st ev hi
  unfold cstep at h
  dsimp only at h
  split at h
  · rename_i hcond
    split at h
    · rename_i stq hq
      simp only [Except.ok.injEq] at h
      subst h
      obtain ⟨q1, q2, q3, q4, q5, q6, q7⟩ :=
        queryRun_fields P (oracle (croute P st ev).queryCount) (croute P st ev) stq hq
      obtain ⟨t1, t2, t3, t4, t5, t6⟩ := transferToFile_fields P stq
      unfold CInv
      refine ⟨?_, hl, ?_, ?_⟩
      · show (transferToFile P stq).queryElems.length = 0
        rw [t4, q5]
        rfl
      · intro b hb
        have hb2 : b ∈ stq.sentBatches := by
          have he : ({ transferToFile P stq with valid := 0 } : CState).sentBatches
              = (transferToFile P stq).sentBatches := rfl
          rw [he, t3] at hb
          exact hb
        rw [q6] at hb2
        rcases List.mem_append.1 hb2 with hb3 | hb3
        · exact p3 b hb3
        · have hbe : b = (croute P st ev).queryElems := List.mem_singleton.1 hb3
          rw [hbe, p1]
          exact p2
      · show (transferToFile P stq).flushed.map (fun p => p.1.refid)
            ++ (transferToFile P stq).container.map (fun e => e.refid)
          = (List.range' 1 (transferToFile P stq).stats.TOTAL).map some
        rw [t1, List.map_append, map_refid_pairs, t2, List.map_nil, List.append_nil,
          t5, q3, q2, q1]
        exact p4
    · exact Except.noConfusion h
  · rename_i hcond
    simp only [Except.ok.injEq] at h
    subst h
    unfold CInv
    refine ⟨p1, ?_, p3, p4⟩
    by_cases hv : (croute P st ev).valid = 0
    · omega
    · have h5 : (croute P st ev).valid % P.limit ≠ 0 := by
        intro hm
        exact hcond (by simp [hv, hm])
      have h6 : (croute P st ev).valid ≠ P.limit := by
        intro he
        rw [he] at h5
        exact h5 (Nat.mod_self _)
      omega

theorem foldlM_cstep_inv (P : CParams) (oracle : Nat → QOutcome) (hl : 0 < P.limit) :
    ∀ (evs : List GEv) (st st2 : CState), CInv P st →
    evs.foldlM (cstep P oracle) st = .ok st2 → CInv P st2 := by
  intro evs
  induction evs with
  | nil =>
    intro st st2 hi h
    have h2 : Except.ok (ε := CrashE) st = Except.ok st2 := h
    cases h2
    exact hi
  | cons ev rest ih =>
    intro st st2 hi h
    rw [List.foldlM_cons] at h
    rcases hc : cstep P oracle st ev with c | st1
    · rw [hc] at h
      exact Except.noConfusion h
    · rw [hc] at h
      exact ih st1 st2 (cstep_inv P oracle st ev st1 hl hi hc) h

/-- C5: for every run of the controller loop with a positive batch limit,
every dispatched batch holds at most the per-batch item limit of fragments,
the container is emptied by the closing flush (it is also emptied before any
new batch opens, since the flush runs inside the same loop step that filled
the batch), and the records flushed to the output are exactly the accepted
records, each exactly once, in correlation id order. -/
theorem C5_batch_discipline (P : CParams) (oracle : Nat → QOutcome) (evs : List GEv)
    (st : CState) (hl : 0 < P.limit) (h : runPass P oracle evs = .ok st) :
    (∀ b ∈ st.sentBatches, b.length ≤ P.limit) ∧
    st.container = [] ∧
    st.flushed.map (fun p => p.1.refid) = (List.range' 1 st.stats.TOTAL).map some := by
  have hinit : CInv P ({} : CState) := by
    unfold CInv
    exact ⟨rfl, hl, fun b hb => absurd hb (List.not_mem_nil b), rfl⟩
  unfold runPass at h
  split at h
  · rename_i stf hf
    simp only [Except.ok.injEq] at h
    subst h
    obtain ⟨i1, i2, i3, i4⟩ := foldlM_cstep_inv P oracle hl evs {} stf hinit hf
    obtain ⟨t1, t2, t3, t4, t5, t6⟩ := transferToFile_fields P stf
    refine ⟨?_, t2, ?_⟩
    · intro b hb
      rw [t3] at hb
      exact i3 b hb
    · rw [t1, List.map_append, map_refid_pairs, t5]
      exact i4
  · exact Except.noConfusion h

/-- Witness for C5 on a concrete run with batch limit two. -/
theorem C5_batch_discipline_witness :
    0 < (2 : Nat) ∧
    (∀ b ∈ ({} : CState).sentBatches, b.length ≤ 2) ∧
    ({} : CState).container = [] ∧
    ({} : CState).flushed.map (fun p => p.1.refid)
      = (List.range' 1 ({} : CState).stats.TOTAL).map some := by
  refine ⟨by decide, ?_⟩
  exact C5_batch_discipline ⟨2, false, false, 0, none, true, fun _ => 0, fun o _ _ _ => o⟩
    (fun _ => QOutcome.exnFail) [] {} (by decide) rfl

end GetMRef
